import Mathlib

/-!
Verification model of the talxwev-notify toast widget (src/index.ts).

The embedding is a shallow one: DOM elements are identified by natural
numbers, the two module-level `Map`s (`TOASTS`, `CONTAINERS`) are
association lists with JavaScript `Map` semantics (insertion order kept,
`set` overwrites in place), `setTimeout`/`clearTimeout` are modelled by an
explicit queue of pending timers with fresh positive handles, and
`Date.now()` is a `now` field advanced by explicit `tick` operations that
fire due timers in (fireAt, handle) order.  JavaScript records distinguish
an absent property from a property that is present with value `undefined`;
this is modelled by `Option (FieldVal α)` for caller-supplied options
(`none` = absent, `some .undef` = present but undefined), which is exactly
what `Object.assign` needs to be faithful.  The browser environment is
modelled as present (`isBrowser()` true); the no-browser early returns of
the source are therefore not reachable in this model.
-/

namespace TalxwevNotify

/-- Severity of a toast, `type ToastType` in the source. -/
inductive ToastType where
  | info
  | success
  | error
  | warning
deriving DecidableEq

/-- Screen position of a container, `type Position` in the source. -/
inductive Position where
  | topRight
  | topLeft
  | bottomRight
  | bottomLeft
  | topCenter
  | bottomCenter
deriving DecidableEq

/-- The string each `Position` value denotes in the source. -/
def Position.str : Position → String
  | .topRight => "top-right"
  | .topLeft => "top-left"
  | .bottomRight => "bottom-right"
  | .bottomLeft => "bottom-left"
  | .topCenter => "top-center"
  | .bottomCenter => "bottom-center"

/-- A JavaScript property value: either `undefined` or an actual value. -/
inductive FieldVal (α : Type) where
  | undef
  | val (a : α)
deriving DecidableEq

/-- Value of a field with a fallback for `undefined`. -/
def FieldVal.getD {α : Type} : FieldVal α → α → α
  | .val a, _ => a
  | .undef, d => d

/-- JavaScript truthiness of a string-valued field (`""` and `undefined` are falsy). -/
def FieldVal.truthyStr : FieldVal String → Bool
  | .val s => decide (s ≠ "")
  | .undef => false

/-- JavaScript truthiness of a boolean-valued field (`undefined` is falsy). -/
def FieldVal.truthyB : FieldVal Bool → Bool
  | .val b => b
  | .undef => false

/-- Delay actually used by `setTimeout` for a duration field: `setTimeout`
treats an `undefined` delay as `0` milliseconds. -/
def FieldVal.durOrZero : FieldVal Nat → Nat
  | .val n => n
  | .undef => 0

/-- Caller-supplied options (`interface NotifyOptions`).  Every field is
optional; `none` means the property is absent, `some .undef` means it is
present with value `undefined`.  `onClose` is modelled by whether a truthy
callback is installed; `render` by whether a custom renderer function (a
truthy value, as opposed to the built-in default `null`) is installed. -/
structure NotifyOptions where
  id : Option (FieldVal String) := none
  title : Option (FieldVal String) := none
  message : Option (FieldVal String) := none
  type : Option (FieldVal ToastType) := none
  duration : Option (FieldVal Nat) := none
  closable : Option (FieldVal Bool) := none
  pauseOnHover : Option (FieldVal Bool) := none
  position : Option (FieldVal Position) := none
  containerClass : Option (FieldVal String) := none
  toastClass : Option (FieldVal String) := none
  injectStyles : Option (FieldVal Bool) := none
  onClose : Option (FieldVal Bool) := none
  render : Option (FieldVal Bool) := none
deriving DecidableEq

/-- Fully merged options (`Required<NotifyOptions>`): every property is
present, though its value may still be `undefined` if a caller explicitly
passed `undefined` (an `Object.assign` consequence). -/
structure ResolvedOptions where
  id : FieldVal String
  title : FieldVal String
  message : FieldVal String
  type : FieldVal ToastType
  duration : FieldVal Nat
  closable : FieldVal Bool
  pauseOnHover : FieldVal Bool
  position : FieldVal Position
  containerClass : FieldVal String
  toastClass : FieldVal String
  injectStyles : FieldVal Bool
  onClose : FieldVal Bool
  render : FieldVal Bool
deriving DecidableEq

/-- The built-in defaults (`const DEFAULTS`).  `onClose: () => {}` is a
truthy function, hence `val true`; `render: null` is falsy, hence
`val false`. -/
def DEFAULTS : ResolvedOptions :=
  { id := .val ""
    title := .val ""
    message := .val ""
    type := .val .info
    duration := .val 4000
    closable := .val true
    pauseOnHover := .val true
    position := .val .topRight
    containerClass := .val ""
    toastClass := .val ""
    injectStyles := .val true
    onClose := .val true
    render := .val false }

/-- One field of `Object.assign({}, default-layer, global-layer, call-layer)`:
the call layer wins whenever its property is present (even with value
`undefined`), otherwise the global layer, otherwise the default. -/
def resolveField {α : Type} (d : FieldVal α) (g c : Option (FieldVal α)) : FieldVal α :=
  c.getD (g.getD d)

/-- The full merge `Object.assign({}, DEFAULTS, globalConfig, optsBase)`
performed by `notify`. -/
def resolveOpts (g c : NotifyOptions) : ResolvedOptions :=
  { id := resolveField DEFAULTS.id g.id c.id
    title := resolveField DEFAULTS.title g.title c.title
    message := resolveField DEFAULTS.message g.message c.message
    type := resolveField DEFAULTS.type g.type c.type
    duration := resolveField DEFAULTS.duration g.duration c.duration
    closable := resolveField DEFAULTS.closable g.closable c.closable
    pauseOnHover := resolveField DEFAULTS.pauseOnHover g.pauseOnHover c.pauseOnHover
    position := resolveField DEFAULTS.position g.position c.position
    containerClass := resolveField DEFAULTS.containerClass g.containerClass c.containerClass
    toastClass := resolveField DEFAULTS.toastClass g.toastClass c.toastClass
    injectStyles := resolveField DEFAULTS.injectStyles g.injectStyles c.injectStyles
    onClose := resolveField DEFAULTS.onClose g.onClose c.onClose
    render := resolveField DEFAULTS.render g.render c.render }

/-- One field of the `Object.assign({}, globalConfig, options)` performed by
`configure`: the new options win whenever their property is present. -/
def mergeField {α : Type} (g o : Option (FieldVal α)) : Option (FieldVal α) :=
  o.orElse (fun _ => g)

/-- The shallow merge performed by `configure`. -/
def mergeOpts (g o : NotifyOptions) : NotifyOptions :=
  { id := mergeField g.id o.id
    title := mergeField g.title o.title
    message := mergeField g.message o.message
    type := mergeField g.type o.type
    duration := mergeField g.duration o.duration
    closable := mergeField g.closable o.closable
    pauseOnHover := mergeField g.pauseOnHover o.pauseOnHover
    position := mergeField g.position o.position
    containerClass := mergeField g.containerClass o.containerClass
    toastClass := mergeField g.toastClass o.toastClass
    injectStyles := mergeField g.injectStyles o.injectStyles
    onClose := mergeField g.onClose o.onClose
    render := mergeField g.render o.render }

/-- The argument normalization `{ message: messageOrOpts, ...(maybeOpts || {}) }`
done by `notify` (and the convenience wrappers) when the first argument is a
bare string: the spread of the secondary record overrides the `message`
property whenever the secondary record carries one (even an `undefined` one). -/
def mkBase (msg : String) (o : Option NotifyOptions) : NotifyOptions :=
  let o' := o.getD {}
  { o' with message := some (o'.message.getD (.val msg)) }

/-- The `{...base, type: t}` record built by the `success`/`error`/`info`/
`warning` wrappers. -/
def withType (o : NotifyOptions) (t : ToastType) : NotifyOptions :=
  { o with type := some (.val t) }

/-- The generated identifier of `makeId()`.  The `Date.now()`/`Math.random()`
entropy is abstracted by a fresh per-state counter; the `"t_"` prefix is the
source's. -/
def makeId (n : Nat) : String :=
  "t_" ++ Nat.repr n

/-- The composite `CONTAINERS` key built by `containerFor`:
`position + (containerClass ? "|" + containerClass : "")`.  An `undefined`
position coerces to the string `"undefined"`; an `undefined` container class
is replaced by `""` by the default parameter. -/
def posStr : FieldVal Position → String
  | .val p => p.str
  | .undef => "undefined"

/-- The container-class string after the `containerClass = ""` default
parameter (which replaces `undefined`). -/
def clsStr : FieldVal String → String
  | .val c => c
  | .undef => ""

/-- The container key of `containerFor`. -/
def containerKey (p : FieldVal Position) (c : FieldVal String) : String :=
  posStr p ++ (if clsStr c = "" then "" else "|" ++ clsStr c)

/-- A live toast instance (`interface InternalToast`), together with the
hover-closure locals `remaining` and `start` that the source keeps in the
`mouseenter`/`mouseleave` closures of `notify`.  The element identity `el`
always equals the instance's own heap key.  An `undefined` duration makes
the source's `remaining` local `undefined`/`NaN`, which compares and
subtracts exactly like `0` in every guard the source performs, so it is
modelled by `0`. -/
structure InternalToast where
  id : String
  el : Nat
  timeoutId : Option Nat
  remaining : Nat
  hoverStart : Nat
  opts : ResolvedOptions
deriving DecidableEq

/-- What a pending `setTimeout` callback will do: the auto-dismiss /
hover-resume callbacks run `dismiss(id)` (tagged with the toast instance
that armed them), and the removal callback scheduled by `dismiss` runs the
detach/delete/onClose sequence for one instance. -/
inductive TAct where
  | fireDismiss (id : String) (owner : Nat)
  | removal (owner : Nat)
deriving DecidableEq

/-- A pending timer of the scheduler. -/
structure Timer where
  handle : Nat
  fireAt : Nat
  act : TAct
deriving DecidableEq

/-- Observable events, in chronological order: a timer callback executing,
and an `onClose` callback being invoked for a toast instance. -/
inductive Event where
  | fired (act : TAct)
  | closed (owner : Nat)
deriving DecidableEq

/-- The whole module-level state of src/index.ts. -/
structure NotifyState where
  toasts : List (String × Nat)
  heap : List (Nat × InternalToast)
  containers : List (String × Nat)
  globalConfig : NotifyOptions
  pending : List Timer
  attached : List (Nat × Nat)
  stylesInjected : Bool
  nextObj : Nat
  nextContainer : Nat
  nextTimer : Nat
  now : Nat
  events : List Event
deriving DecidableEq

/-- Initial module state. -/
def init : NotifyState :=
  { toasts := []
    heap := []
    containers := []
    globalConfig := {}
    pending := []
    attached := []
    stylesInjected := false
    nextObj := 0
    nextContainer := 0
    nextTimer := 1
    now := 0
    events := [] }

/-- Lookup in a JavaScript `Map` modelled as an association list. -/
def mapGet {κ β : Type} [DecidableEq κ] : List (κ × β) → κ → Option β
  | [], _ => none
  | (k', v) :: rest, k => if k' = k then some v else mapGet rest k

/-- `Map.set`: overwrite in place if the key is present, else append. -/
def mapSet {κ β : Type} [DecidableEq κ] : List (κ × β) → κ → β → List (κ × β)
  | [], k, v => [(k, v)]
  | (k', v') :: rest, k, v =>
    if k' = k then (k, v) :: rest else (k', v') :: mapSet rest k v

/-- `Map.delete`. -/
def mapDelete {κ β : Type} [DecidableEq κ] : List (κ × β) → κ → List (κ × β)
  | [], _ => []
  | (k', v') :: rest, k =>
    if k' = k then mapDelete rest k else (k', v') :: mapDelete rest k

/-- `clearTimeout(h)`: drop the pending timer with handle `h`. -/
def removeTimer : List Timer → Nat → List Timer
  | [], _ => []
  | t :: rest, h => if t.handle = h then removeTimer rest h else t :: removeTimer rest h

/-- Whether element `e` is currently attached to some container. -/
def attachedTo (s : NotifyState) (e : Nat) : Prop :=
  e ∈ s.attached.map Prod.fst

instance (s : NotifyState) (e : Nat) : Decidable (attachedTo s e) := by
  unfold attachedTo; infer_instance

/-- `containerFor(position, containerClass)`: reuse the cached container for
the composite key, else create a fresh one, attach it and cache it.  Returns
the container's element identity and the updated state. -/
def containerForCore (s : NotifyState) (key : String) : Nat × NotifyState :=
  match mapGet s.containers key with
  | some c => (c, s)
  | none =>
    (s.nextContainer,
      { s with containers := s.containers ++ [(key, s.nextContainer)]
               nextContainer := s.nextContainer + 1 })

/-- `clearTimeout` applied to a possibly-`undefined` recorded handle (a
no-op on `undefined`). -/
def clearRec (h : Option Nat) (l : List Timer) : List Timer :=
  match h with
  | none => l
  | some hh => removeTimer l hh

/-- `setAutoDismiss(internal)`: no timer when `duration === 0`; otherwise
clear the recorded timer handle and arm `setTimeout(() => dismiss(id), duration)`,
recording the fresh handle in the instance. -/
def setAutoDismissCore (s : NotifyState) (obj : Nat) : NotifyState :=
  match mapGet s.heap obj with
  | none => s
  | some internal =>
    if internal.opts.duration = FieldVal.val 0 then s
    else
      { s with
          pending := clearRec internal.timeoutId s.pending ++
            [⟨s.nextTimer, s.now + internal.opts.duration.durOrZero,
              .fireDismiss internal.id obj⟩]
          heap := mapSet s.heap obj { internal with timeoutId := some s.nextTimer }
          nextTimer := s.nextTimer + 1 }

/-- The identifier `notify` ends up using for a call: the resolved `id` when
truthy, else a generated one. -/
def assignedId (s : NotifyState) (base : NotifyOptions) : String :=
  if (resolveOpts s.globalConfig base).id.truthyStr then
    (resolveOpts s.globalConfig base).id.getD ""
  else makeId s.nextObj

/-- The resolved options the new toast will carry: the merged record with
the assigned identifier written back into it (`opts.id = makeId()`). -/
def resolvedWithId (s : NotifyState) (base : NotifyOptions) : ResolvedOptions :=
  { resolveOpts s.globalConfig base with id := FieldVal.val (assignedId s base) }

/-- The `injectDefaultStyles()` call of `notify` (idempotent; guarded by the
`injectStyles` truthiness). -/
def stylesStage (s : NotifyState) (r : ResolvedOptions) : NotifyState :=
  if r.injectStyles.truthyB then { s with stylesInjected := true } else s

/-- Build the element, record the instance in `TOASTS`, and append the
element to its container; the hover-closure locals `remaining` and `start`
are initialized to `opts.duration` and `Date.now()`. -/
def registerStage (s : NotifyState) (rid : String) (r : ResolvedOptions) (cid : Nat) :
    NotifyState :=
  { s with
      heap := s.heap ++
        [(s.nextObj,
          { id := rid
            el := s.nextObj
            timeoutId := none
            remaining := r.duration.durOrZero
            hoverStart := s.now
            opts := r })]
      toasts := mapSet s.toasts rid s.nextObj
      attached := s.attached ++ [(s.nextObj, cid)]
      nextObj := s.nextObj + 1 }

/-- The container key a `notify` call resolves to. -/
def notifyKey (s : NotifyState) (base : NotifyOptions) : String :=
  containerKey (resolvedWithId s base).position (resolvedWithId s base).containerClass

/-- The body of `notify` (browser present): resolve options, fill in the
identifier, inject styles when requested, obtain the container, build the
element, register the instance, attach the element, install the hover
closure locals, arm the auto-dismiss timer, and return the identifier. -/
def notifyRet (s : NotifyState) (base : NotifyOptions) : String × NotifyState :=
  (assignedId s base,
    setAutoDismissCore
      (registerStage
        (containerForCore (stylesStage s (resolvedWithId s base)) (notifyKey s base)).2
        (assignedId s base) (resolvedWithId s base)
        (containerForCore (stylesStage s (resolvedWithId s base)) (notifyKey s base)).1)
      (containerForCore (stylesStage s (resolvedWithId s base)) (notifyKey s base)).2.nextObj)

/-- `dismiss(id)`: no-op on an unknown identifier; otherwise clear the
recorded timer handle (without resetting the `timeoutId` field) and schedule
the removal callback 220 ms from now. -/
def dismissCore (s : NotifyState) (id : String) : NotifyState :=
  match mapGet s.toasts id with
  | none => s
  | some obj =>
    match mapGet s.heap obj with
    | none => s
    | some internal =>
      { s with
          pending := clearRec internal.timeoutId s.pending ++
            [⟨s.nextTimer, s.now + 220, .removal obj⟩]
          nextTimer := s.nextTimer + 1 }

/-- The removal callback scheduled by `dismiss`: detach the element (already
detached is tolerated), delete the registry entry for the instance's
identifier, and invoke `onClose` when truthy. -/
def removalCore (s : NotifyState) (obj : Nat) : NotifyState :=
  match mapGet s.heap obj with
  | none => s
  | some internal =>
    { s with
        attached := s.attached.filter (fun p => if p.1 = internal.el then false else true)
        toasts := mapDelete s.toasts internal.id
        events := s.events ++
          (if internal.opts.onClose.truthyB then [Event.closed obj] else []) }

/-- The `mouseenter` handler installed by `notify` when `pauseOnHover` is
truthy: with a (possibly stale) recorded timer handle, clear it and shrink
`remaining` by the time elapsed since the last (re)start. -/
def enterCore (s : NotifyState) (obj : Nat) : NotifyState :=
  match mapGet s.heap obj with
  | none => s
  | some internal =>
    if attachedTo s obj ∧ internal.opts.pauseOnHover.truthyB = true then
      match internal.timeoutId with
      | none => s
      | some h =>
        { s with
            pending := removeTimer s.pending h
            heap := mapSet s.heap obj
              { internal with remaining := internal.remaining - (s.now - internal.hoverStart) } }
    else s

/-- The `mouseleave` handler installed by `notify` when `pauseOnHover` is
truthy: with positive remaining time, restart the clock and arm a timer for
exactly the remaining duration. -/
def leaveCore (s : NotifyState) (obj : Nat) : NotifyState :=
  match mapGet s.heap obj with
  | none => s
  | some internal =>
    if attachedTo s obj ∧ internal.opts.pauseOnHover.truthyB = true then
      if 0 < internal.remaining then
        { s with
            pending := s.pending ++
              [⟨s.nextTimer, s.now + internal.remaining, .fireDismiss internal.id obj⟩]
            heap := mapSet s.heap obj
              { internal with hoverStart := s.now, timeoutId := some s.nextTimer }
            nextTimer := s.nextTimer + 1 }
      else s
    else s

/-- `clear()`: snapshot the registry keys and dismiss each. -/
def clearCore (s : NotifyState) : NotifyState :=
  (s.toasts.map Prod.fst).foldl dismissCore s

/-- What a timer callback does when it runs. -/
def runAct (s : NotifyState) : TAct → NotifyState
  | .fireDismiss id _ => dismissCore s id
  | .removal obj => removalCore s obj

/-- Execute one due timer callback: drop it from the queue, log the firing,
advance the clock to its fire time, and run its action. -/
def fireTimer (s : NotifyState) (t : Timer) : NotifyState :=
  runAct
    { s with
        now := t.fireAt
        pending := removeTimer s.pending t.handle
        events := s.events ++ [.fired t.act] }
    t.act

/-- The earliest timer due by the deadline, ties broken by smaller handle
(scheduling order, as the event loop does). -/
def pickDue : List Timer → Nat → Option Timer
  | [], _ => none
  | t :: rest, dl =>
    match pickDue rest dl with
    | none => if t.fireAt ≤ dl then some t else none
    | some u =>
      if t.fireAt ≤ dl then
        if t.fireAt < u.fireAt ∨ (t.fireAt = u.fireAt ∧ t.handle < u.handle) then some t
        else some u
      else some u

/-- Fire every timer due by the deadline, earliest first, then set the clock
to the deadline.  The fuel bound is justified by each `fireDismiss` firing
scheduling at most one `removal` and `removal` firings scheduling nothing. -/
def runTimers : Nat → NotifyState → Nat → NotifyState
  | 0, s, dl => { s with now := dl }
  | fuel + 1, s, dl =>
    match pickDue s.pending dl with
    | none => { s with now := dl }
    | some t => runTimers fuel (fireTimer s t) dl

/-- Let `dt` milliseconds of wall-clock time pass. -/
def tickCore (s : NotifyState) (dt : Nat) : NotifyState :=
  runTimers (2 * s.pending.length + 2) s (s.now + dt)

/-- One externally triggered operation: the eight public API entry points,
wall-clock time passing, and pointer enter/leave events delivered to a
toast element. -/
inductive Op where
  | notifyOp (o : NotifyOptions)
  | notifyStrOp (msg : String) (o : Option NotifyOptions)
  | successOp (o : NotifyOptions)
  | errorOp (o : NotifyOptions)
  | infoOp (o : NotifyOptions)
  | warningOp (o : NotifyOptions)
  | dismissOp (id : String)
  | clearOp
  | configureOp (o : NotifyOptions)
  | tick (dt : Nat)
  | enter (obj : Nat)
  | leave (obj : Nat)
deriving DecidableEq

/-- The options record an operation hands to the `notify` body, when it is a
toast-creating operation. -/
def Op.baseOf : Op → Option NotifyOptions
  | .notifyOp o => some o
  | .notifyStrOp msg o => some (mkBase msg o)
  | .successOp o => some (withType o .success)
  | .errorOp o => some (withType o .error)
  | .infoOp o => some (withType o .info)
  | .warningOp o => some (withType o .warning)
  | _ => none

/-- One step of the system. -/
def step (s : NotifyState) : Op → NotifyState
  | .notifyOp o => (notifyRet s o).2
  | .notifyStrOp msg o => (notifyRet s (mkBase msg o)).2
  | .successOp o => (notifyRet s (withType o .success)).2
  | .errorOp o => (notifyRet s (withType o .error)).2
  | .infoOp o => (notifyRet s (withType o .info)).2
  | .warningOp o => (notifyRet s (withType o .warning)).2
  | .dismissOp id => dismissCore s id
  | .clearOp => clearCore s
  | .configureOp o => { s with globalConfig := mergeOpts s.globalConfig o }
  | .tick dt => tickCore s dt
  | .enter obj => enterCore s obj
  | .leave obj => leaveCore s obj

/-- Run a list of operations. -/
def run (s : NotifyState) : List Op → NotifyState
  | [] => s
  | op :: rest => run (step s op) rest

/-- States the system can actually be in. -/
def Reachable (s : NotifyState) : Prop :=
  ∃ ops, run init ops = s

/-- The identifier recorded for a heap object, when it exists. -/
def heapIdOf (s : NotifyState) (o : Nat) : Option String :=
  (mapGet s.heap o).map InternalToast.id

/-- Owner instance of a timer action. -/
def TAct.owner : TAct → Nat
  | .fireDismiss _ o => o
  | .removal o => o

/-- Whether a pending timer is an auto-dismiss (or hover-resume) timer armed
by the given toast instance. -/
def ownedFire (obj : Nat) (t : Timer) : Bool :=
  match t.act with
  | .fireDismiss _ o => decide (o = obj)
  | .removal _ => false

/-- Whether an event is the firing of an auto-dismiss timer armed by the
given toast instance. -/
def firesObjB (obj : Nat) : Event → Bool
  | .fired (.fireDismiss _ o) => decide (o = obj)
  | _ => false

/-- No auto-dismiss timer of the given instance is pending. -/
def noOwnedFire (s : NotifyState) (obj : Nat) : Prop :=
  ∀ t ∈ s.pending, ownedFire obj t = false

/-- The timer handle currently recorded in a toast instance. -/
def recordedHandle (s : NotifyState) (obj : Nat) : Option Nat :=
  (mapGet s.heap obj).bind InternalToast.timeoutId

/-- Invariant carried after a toast's dismissal: the instance index is below
the allocation counter and none of its auto-dismiss timers is pending. -/
def Good (s : NotifyState) (obj : Nat) : Prop :=
  obj < s.nextObj ∧ noOwnedFire s obj

/-- All identifiers of toast instances ever created. -/
def heapIds (s : NotifyState) : List String :=
  s.heap.map (fun p => p.2.id)

/-- A toast-creating operation is id-fresh at a state when the identifier it
will assign is not that of any instance created so far. -/
def freshStep (s : NotifyState) (op : Op) : Bool :=
  match op.baseOf with
  | some b => decide (assignedId s b ∉ heapIds s)
  | none => true

/-- Every toast-creating operation along the run assigns a fresh identifier. -/
def freshIds : NotifyState → List Op → Bool
  | _, [] => true
  | s, op :: rest => freshStep s op && freshIds (step s op) rest

/-- Number of elements attached to some container that carry the given toast
identifier (the `data-tid` attribute of the source). -/
def tidCount (s : NotifyState) (id : String) : Nat :=
  ((s.attached.map Prod.fst).filter (fun e => decide (heapIdOf s e = some id))).length

/-- Number of registry entries for a given identifier. -/
def keyCount {κ β : Type} [DecidableEq κ] (m : List (κ × β)) (k : κ) : Nat :=
  (m.map Prod.fst).count k

/-- Every field of a merged options record holds an actual value (none was
left `undefined`). -/
def populated (r : ResolvedOptions) : Prop :=
  r.id ≠ .undef ∧ r.title ≠ .undef ∧ r.message ≠ .undef ∧ r.type ≠ .undef ∧
  r.duration ≠ .undef ∧ r.closable ≠ .undef ∧ r.pauseOnHover ≠ .undef ∧
  r.position ≠ .undef ∧ r.containerClass ≠ .undef ∧ r.toastClass ≠ .undef ∧
  r.injectStyles ≠ .undef ∧ r.onClose ≠ .undef ∧ (r.render ≠ .undef)

/-- No field of a caller-supplied (or configured) record is explicitly set
to `undefined`. -/
def noUndef (o : NotifyOptions) : Prop :=
  o.id ≠ some .undef ∧ o.title ≠ some .undef ∧ o.message ≠ some .undef ∧
  o.type ≠ some .undef ∧ o.duration ≠ some .undef ∧ o.closable ≠ some .undef ∧
  o.pauseOnHover ≠ some .undef ∧ o.position ≠ some .undef ∧
  o.containerClass ≠ some .undef ∧ o.toastClass ≠ some .undef ∧
  o.injectStyles ≠ some .undef ∧ o.onClose ≠ some .undef ∧ (o.render ≠ some .undef)

instance (r : ResolvedOptions) : Decidable (populated r) := by
  unfold populated; infer_instance

instance (o : NotifyOptions) : Decidable (noUndef o) := by
  unfold noUndef; infer_instance

/-- After a removal of the given instance has executed, some auto-dismiss
timer of that same instance still executes later. -/
def staleAfterRemoval (obj : Nat) : List Event → Bool
  | [] => false
  | e :: rest =>
    (decide (e = Event.fired (.removal obj)) && rest.any (firesObjB obj)) ||
      staleAfterRemoval obj rest

/-- Consistency of one pending timer action with the heap: an auto-dismiss
timer carries exactly the identifier of the instance that armed it, and a
removal timer's instance exists. -/
def actIdOk (s : NotifyState) : TAct → Prop
  | .fireDismiss i o => heapIdOf s o = some i
  | .removal o => (heapIdOf s o).isSome = true

/-- Well-formedness of the module state, preserved by every operation:
registry keys are unique; heap keys are unique, below the allocation
counter, and each instance's element is its own key; every registry entry
points at an instance carrying that identifier, whose element is attached;
an element is attached at most once and only instances' elements are
attached; and every pending timer is consistent with the heap. -/
structure WF (s : NotifyState) : Prop where
  toastsNodup : (s.toasts.map Prod.fst).Nodup
  heapNodup : (s.heap.map Prod.fst).Nodup
  heapLt : ∀ p ∈ s.heap, p.1 < s.nextObj
  heapEl : ∀ p ∈ s.heap, p.2.el = p.1
  toastsHeap : ∀ p ∈ s.toasts, heapIdOf s p.2 = some p.1
  toastsAttached : ∀ p ∈ s.toasts, p.2 ∈ s.attached.map Prod.fst
  attachedNodup : (s.attached.map Prod.fst).Nodup
  attachedHeap : ∀ e ∈ s.attached.map Prod.fst, (heapIdOf s e).isSome = true
  pendingOk : ∀ t ∈ s.pending, actIdOk s t.act

/-- All instances ever created carry pairwise distinct identifiers (holds
along runs whose toast-creating operations assign fresh identifiers). -/
def DistinctIds (s : NotifyState) : Prop :=
  (s.heap.map (fun p => p.2.id)).Nodup

/-- Invariant of a sticky toast (resolved duration exactly 0) with
identifier `rid` and instance `obj`: it is registered, its recorded timer
handle was never set, its hover `remaining` is 0, no pending auto-dismiss
timer carries its identifier, and no removal of it is scheduled. -/
def StickyInv (rid : String) (obj : Nat) (s : NotifyState) : Prop :=
  WF s ∧ DistinctIds s ∧ mapGet s.toasts rid = some obj ∧
  (∃ i, mapGet s.heap obj = some i ∧ i.id = rid ∧ i.timeoutId = none ∧ i.remaining = 0) ∧
  (∀ t ∈ s.pending, ∀ i' o', t.act = TAct.fireDismiss i' o' → i' ≠ rid) ∧
  (∀ t ∈ s.pending, t.act ≠ TAct.removal obj)

/-! ## Association-list and timer-queue lemmas -/

theorem mapGet_mapSet {κ β : Type} [DecidableEq κ] (m : List (κ × β)) (k k' : κ) (v : β) :
    mapGet (mapSet m k v) k' = if k' = k then some v else mapGet m k' := by
  induction m with
  | nil =>
    simp only [mapSet, mapGet]
    by_cases h : k' = k
    · simp [h]
    · have h' : ¬ k = k' := fun hh => h hh.symm
      simp [h, h']
  | cons q rest ih =>
    obtain ⟨qk, qv⟩ := q
    simp only [mapSet]
    by_cases h1 : qk = k
    · subst h1
      simp only [if_pos rfl, mapGet]
      by_cases h2 : qk = k'
      · subst h2; simp
      · have h2' : ¬ k' = qk := fun hh => h2 hh.symm
        simp [h2, h2']
    · simp only [if_neg h1, mapGet]
      by_cases h3 : qk = k'
      · subst h3
        have h1' : ¬ qk = k := h1
        simp [h1']
      · simp [h3, ih]

theorem mapGet_mapDelete {κ β : Type} [DecidableEq κ] (m : List (κ × β)) (k k' : κ) :
    mapGet (mapDelete m k) k' = if k' = k then none else mapGet m k' := by
  induction m with
  | nil =>
    simp only [mapDelete, mapGet]
    by_cases h : k' = k <;> simp [h]
  | cons q rest ih =>
    obtain ⟨qk, qv⟩ := q
    simp only [mapDelete]
    by_cases h1 : qk = k
    · subst h1
      rw [if_pos rfl, ih]
      by_cases h2 : k' = qk
      · simp [h2]
      · have h2' : ¬ qk = k' := fun hh => h2 hh.symm
        simp [h2, h2', mapGet]
    · rw [if_neg h1]
      simp only [mapGet]
      by_cases h3 : qk = k'
      · subst h3
        have hx : ¬ qk = k := h1
        simp [hx]
      · simp [h3, ih]

theorem mem_mapSet {κ β : Type} [DecidableEq κ] {m : List (κ × β)} {k : κ} {v : β}
    {p : κ × β} (h : p ∈ mapSet m k v) : p = (k, v) ∨ p ∈ m := by
  induction m with
  | nil => simpa [mapSet] using h
  | cons q rest ih =>
    obtain ⟨qk, qv⟩ := q
    by_cases h1 : qk = k
    · subst h1
      rcases (by simpa [mapSet] using h : p = (qk, v) ∨ p ∈ rest) with h2 | h2
      · exact Or.inl h2
      · exact Or.inr (List.mem_cons_of_mem _ h2)
    · rcases (by simpa [mapSet, h1] using h : p = (qk, qv) ∨ p ∈ mapSet rest k v) with h2 | h2
      · exact Or.inr (by simp [h2])
      · rcases ih h2 with h3 | h3
        · exact Or.inl h3
        · exact Or.inr (List.mem_cons_of_mem _ h3)

theorem mem_mapDelete {κ β : Type} [DecidableEq κ] {m : List (κ × β)} {k : κ} {p : κ × β} :
    p ∈ mapDelete m k ↔ p ∈ m ∧ p.1 ≠ k := by
  induction m with
  | nil => simp [mapDelete]
  | cons q rest ih =>
    obtain ⟨qk, qv⟩ := q
    simp only [mapDelete]
    by_cases h1 : qk = k
    · subst h1
      rw [if_pos rfl, ih]
      simp only [List.mem_cons]
      constructor
      · rintro ⟨h2, h3⟩; exact ⟨Or.inr h2, h3⟩
      · rintro ⟨h2 | h2, h3⟩
        · subst h2; exact absurd rfl h3
        · exact ⟨h2, h3⟩
    · rw [if_neg h1]
      simp only [List.mem_cons, ih]
      constructor
      · rintro (h2 | ⟨h2, h3⟩)
        · subst h2; exact ⟨Or.inl rfl, h1⟩
        · exact ⟨Or.inr h2, h3⟩
      · rintro ⟨h2 | h2, h3⟩
        · exact Or.inl h2
        · exact Or.inr ⟨h2, h3⟩

theorem mapDelete_sublist {κ β : Type} [DecidableEq κ] (m : List (κ × β)) (k : κ) :
    (mapDelete m k).Sublist m := by
  induction m with
  | nil => simp [mapDelete]
  | cons q rest ih =>
    by_cases h1 : q.1 = k
    · obtain ⟨qk, qv⟩ := q
      simp only [mapDelete, if_pos h1]
      exact ih.cons _
    · obtain ⟨qk, qv⟩ := q
      simp only [mapDelete, if_neg h1]
      exact ih.cons₂ _

theorem keys_mapSet {κ β : Type} [DecidableEq κ] (m : List (κ × β)) (k : κ) (v : β) :
    (mapSet m k v).map Prod.fst =
      if k ∈ m.map Prod.fst then m.map Prod.fst else m.map Prod.fst ++ [k] := by
  induction m with
  | nil => simp [mapSet]
  | cons q rest ih =>
    obtain ⟨qk, qv⟩ := q
    by_cases h1 : qk = k
    · subst h1; simp [mapSet]
    · by_cases h2 : k ∈ rest.map Prod.fst <;>
        simp [mapSet, h1, Ne.symm h1, h2, ih]

theorem nodup_keys_mapSet {κ β : Type} [DecidableEq κ] {m : List (κ × β)} {k : κ} {v : β}
    (h : (m.map Prod.fst).Nodup) : ((mapSet m k v).map Prod.fst).Nodup := by
  rw [keys_mapSet]
  by_cases h1 : k ∈ m.map Prod.fst
  · simpa [h1] using h
  · simpa [h1] using List.Nodup.append h (by simp) (by simpa using h1)

theorem mapGet_eq_some_mem {κ β : Type} [DecidableEq κ] {m : List (κ × β)} {k : κ} {v : β}
    (h : mapGet m k = some v) : (k, v) ∈ m := by
  induction m with
  | nil => simp [mapGet] at h
  | cons q rest ih =>
    obtain ⟨qk, qv⟩ := q
    by_cases h1 : qk = k
    · subst h1
      simp [mapGet] at h
      simp [h]
    · simp only [mapGet, if_neg h1] at h
      exact List.mem_cons_of_mem _ (ih h)

theorem mapGet_eq_none_iff {κ β : Type} [DecidableEq κ] {m : List (κ × β)} {k : κ} :
    mapGet m k = none ↔ k ∉ m.map Prod.fst := by
  induction m with
  | nil => simp [mapGet]
  | cons q rest ih =>
    obtain ⟨qk, qv⟩ := q
    by_cases h1 : qk = k
    · subst h1; simp [mapGet]
    · simp [mapGet, h1, ih, Ne.symm h1]

theorem mem_keys_mapGet {κ β : Type} [DecidableEq κ] {m : List (κ × β)} {k : κ}
    (h : k ∈ m.map Prod.fst) : ∃ v, mapGet m k = some v := by
  cases h2 : mapGet m k with
  | none => exact absurd (mapGet_eq_none_iff.1 h2) (by simp [h])
  | some v => exact ⟨v, rfl⟩

theorem mapGet_of_mem_nodup {κ β : Type} [DecidableEq κ] {m : List (κ × β)} {k : κ} {v : β}
    (hn : (m.map Prod.fst).Nodup) (h : (k, v) ∈ m) : mapGet m k = some v := by
  induction m with
  | nil => simp at h
  | cons q rest ih =>
    obtain ⟨qk, qv⟩ := q
    rw [List.map_cons, List.nodup_cons] at hn
    rcases List.mem_cons.1 h with h1 | h1
    · injection h1 with ha hb
      subst ha; subst hb
      simp [mapGet]
    · have hk : k ∈ rest.map Prod.fst := List.mem_map_of_mem Prod.fst h1
      have hne : qk ≠ k := fun hh => hn.1 (hh ▸ hk)
      simp only [mapGet, if_neg hne]
      exact ih hn.2 h1

theorem mapGet_append_left {κ β : Type} [DecidableEq κ] {m₁ : List (κ × β)} (m₂ : List (κ × β))
    {k : κ} {v : β} (h : mapGet m₁ k = some v) : mapGet (m₁ ++ m₂) k = some v := by
  induction m₁ with
  | nil => simp [mapGet] at h
  | cons q rest ih =>
    obtain ⟨qk, qv⟩ := q
    by_cases h1 : qk = k
    · subst h1
      simp [mapGet] at h
      simp [mapGet, h]
    · simp only [mapGet, if_neg h1] at h ⊢
      exact ih h

theorem mapGet_append_right {κ β : Type} [DecidableEq κ] {m₁ : List (κ × β)} (m₂ : List (κ × β))
    {k : κ} (h : mapGet m₁ k = none) : mapGet (m₁ ++ m₂) k = mapGet m₂ k := by
  induction m₁ with
  | nil => simp [mapGet]
  | cons q rest ih =>
    obtain ⟨qk, qv⟩ := q
    by_cases h1 : qk = k
    · subst h1; simp [mapGet] at h
    · simp only [mapGet, if_neg h1] at h ⊢
      exact ih h

theorem mem_removeTimer {l : List Timer} {h : Nat} {t : Timer} :
    t ∈ removeTimer l h ↔ t ∈ l ∧ t.handle ≠ h := by
  induction l with
  | nil => simp [removeTimer]
  | cons u rest ih =>
    simp only [removeTimer]
    by_cases h1 : u.handle = h
    · rw [if_pos h1, ih]
      simp only [List.mem_cons]
      constructor
      · rintro ⟨h2, h3⟩; exact ⟨Or.inr h2, h3⟩
      · rintro ⟨h2 | h2, h3⟩
        · subst h2; exact absurd h1 h3
        · exact ⟨h2, h3⟩
    · rw [if_neg h1]
      simp only [List.mem_cons, ih]
      constructor
      · rintro (h2 | ⟨h2, h3⟩)
        · subst h2; exact ⟨Or.inl rfl, h1⟩
        · exact ⟨Or.inr h2, h3⟩
      · rintro ⟨h2 | h2, h3⟩
        · exact Or.inl h2
        · exact Or.inr ⟨h2, h3⟩

theorem mem_clearRec {h : Option Nat} {l : List Timer} {t : Timer} (ht : t ∈ clearRec h l) :
    t ∈ l := by
  cases h with
  | none => exact ht
  | some hh => exact (mem_removeTimer.1 ht).1

theorem pickDue_mem {l : List Timer} {dl : Nat} : ∀ {t : Timer}, pickDue l dl = some t → t ∈ l := by
  induction l with
  | nil => intro t h; simp [pickDue] at h
  | cons u rest ih =>
    intro t h
    simp only [pickDue] at h
    cases h2 : pickDue rest dl with
    | none =>
      rw [h2] at h
      by_cases h3 : u.fireAt ≤ dl
      · simp only [if_pos h3, Option.some.injEq] at h
        simp [h]
      · simp [if_neg h3] at h
    | some w =>
      rw [h2] at h
      by_cases h3 : u.fireAt ≤ dl
      · by_cases h4 : u.fireAt < w.fireAt ∨ (u.fireAt = w.fireAt ∧ u.handle < w.handle)
        · simp only [if_pos h3, if_pos h4, Option.some.injEq] at h
          simp [h]
        · simp only [if_pos h3, if_neg h4, Option.some.injEq] at h
          exact List.mem_cons_of_mem _ (h ▸ ih h2)
      · simp only [if_neg h3, Option.some.injEq] at h
        exact List.mem_cons_of_mem _ (h ▸ ih h2)

/-! ## Characterization of the core operations -/

theorem dismissCore_none {s : NotifyState} {id : String} (hx : mapGet s.toasts id = none) :
    dismissCore s id = s := by
  unfold dismissCore
  split
  · rfl
  next obj' hx2 =>
    rw [hx] at hx2
    exact Option.noConfusion hx2

theorem dismissCore_noheap {s : NotifyState} {id : String} {obj : Nat}
    (hx : mapGet s.toasts id = some obj) (hy : mapGet s.heap obj = none) :
    dismissCore s id = s := by
  unfold dismissCore
  split
  · rfl
  next obj' hx2 =>
    rw [hx] at hx2
    injection hx2 with hobj
    subst hobj
    split
    · rfl
    next internal' hy2 =>
      rw [hy] at hy2
      exact Option.noConfusion hy2

theorem dismissCore_eq {s : NotifyState} {id : String} {obj : Nat} {internal : InternalToast}
    (hx : mapGet s.toasts id = some obj) (hy : mapGet s.heap obj = some internal) :
    dismissCore s id =
      { s with
          pending := clearRec internal.timeoutId s.pending ++
            [⟨s.nextTimer, s.now + 220, .removal obj⟩]
          nextTimer := s.nextTimer + 1 } := by
  unfold dismissCore
  split
  next hx2 =>
    rw [hx] at hx2
    exact Option.noConfusion hx2
  next obj' hx2 =>
    rw [hx] at hx2
    injection hx2 with hobj
    subst hobj
    split
    next hy2 =>
      rw [hy] at hy2
      exact Option.noConfusion hy2
    next internal' hy2 =>
      rw [hy] at hy2
      injection hy2 with hint
      subst hint
      rfl

theorem removalCore_none {s : NotifyState} {obj : Nat} (hy : mapGet s.heap obj = none) :
    removalCore s obj = s := by
  unfold removalCore
  split
  · rfl
  next internal' hy2 =>
    rw [hy] at hy2
    exact Option.noConfusion hy2

theorem removalCore_eq {s : NotifyState} {obj : Nat} {internal : InternalToast}
    (hy : mapGet s.heap obj = some internal) :
    removalCore s obj =
      { s with
          attached := s.attached.filter (fun p => if p.1 = internal.el then false else true)
          toasts := mapDelete s.toasts internal.id
          events := s.events ++
            (if internal.opts.onClose.truthyB then [Event.closed obj] else []) } := by
  unfold removalCore
  split
  next hy2 =>
    rw [hy] at hy2
    exact Option.noConfusion hy2
  next internal' hy2 =>
    rw [hy] at hy2
    injection hy2 with hint
    subst hint
    rfl

theorem setAuto_none {s : NotifyState} {obj : Nat} (hy : mapGet s.heap obj = none) :
    setAutoDismissCore s obj = s := by
  unfold setAutoDismissCore
  split
  · rfl
  next internal' hy2 =>
    rw [hy] at hy2
    exact Option.noConfusion hy2

theorem setAuto_zero {s : NotifyState} {obj : Nat} {internal : InternalToast}
    (hy : mapGet s.heap obj = some internal)
    (hd : internal.opts.duration = FieldVal.val 0) :
    setAutoDismissCore s obj = s := by
  unfold setAutoDismissCore
  split
  · rfl
  next internal' hy2 =>
    rw [hy] at hy2
    injection hy2 with hint
    subst hint
    rw [if_pos hd]

theorem setAuto_eq {s : NotifyState} {obj : Nat} {internal : InternalToast}
    (hy : mapGet s.heap obj = some internal)
    (hd : ¬ internal.opts.duration = FieldVal.val 0) :
    setAutoDismissCore s obj =
      { s with
          pending := clearRec internal.timeoutId s.pending ++
            [⟨s.nextTimer, s.now + internal.opts.duration.durOrZero,
              .fireDismiss internal.id obj⟩]
          heap := mapSet s.heap obj { internal with timeoutId := some s.nextTimer }
          nextTimer := s.nextTimer + 1 } := by
  unfold setAutoDismissCore
  split
  next hy2 =>
    rw [hy] at hy2
    exact Option.noConfusion hy2
  next internal' hy2 =>
    rw [hy] at hy2
    injection hy2 with hint
    subst hint
    rw [if_neg hd]

theorem enterCore_chars (s : NotifyState) (obj : Nat) :
    enterCore s obj = s ∨
    ∃ internal hh, mapGet s.heap obj = some internal ∧ internal.timeoutId = some hh ∧
      (attachedTo s obj ∧ internal.opts.pauseOnHover.truthyB = true) ∧
      enterCore s obj =
        { s with
            pending := removeTimer s.pending hh
            heap := mapSet s.heap obj
              { internal with
                  remaining := internal.remaining - (s.now - internal.hoverStart) } } := by
  unfold enterCore
  split
  · exact Or.inl rfl
  next internal hy =>
    split
    next hg =>
      split
      · exact Or.inl rfl
      next hh hz => exact Or.inr ⟨internal, hh, hy, hz, hg, rfl⟩
    next hg => exact Or.inl rfl

theorem leaveCore_chars (s : NotifyState) (obj : Nat) :
    leaveCore s obj = s ∨
    ∃ internal, mapGet s.heap obj = some internal ∧ 0 < internal.remaining ∧
      (attachedTo s obj ∧ internal.opts.pauseOnHover.truthyB = true) ∧
      leaveCore s obj =
        { s with
            pending := s.pending ++
              [⟨s.nextTimer, s.now + internal.remaining, .fireDismiss internal.id obj⟩]
            heap := mapSet s.heap obj
              { internal with hoverStart := s.now, timeoutId := some s.nextTimer }
            nextTimer := s.nextTimer + 1 } := by
  unfold leaveCore
  split
  · exact Or.inl rfl
  next internal hy =>
    split
    next hg =>
      split
      next hr => exact Or.inr ⟨internal, hy, hr, hg, rfl⟩
      next hr => exact Or.inl rfl
    next hg => exact Or.inl rfl

/-! ## Preservation of well-formedness -/

theorem heapIdOf_heap_eq {s s' : NotifyState} (hh : s'.heap = s.heap) (o : Nat) :
    heapIdOf s' o = heapIdOf s o := by
  simp [heapIdOf, hh]

theorem actIdOk_mono {s s' : NotifyState}
    (hid : ∀ o i, heapIdOf s o = some i → heapIdOf s' o = some i) {a : TAct}
    (ha : actIdOk s a) : actIdOk s' a := by
  cases a with
  | fireDismiss i o => exact hid o i ha
  | removal o =>
    have ha' : (heapIdOf s o).isSome = true := ha
    show (heapIdOf s' o).isSome = true
    cases hg : heapIdOf s o with
    | none => rw [hg] at ha'; simp at ha'
    | some v => rw [hid o v hg]; rfl

theorem actIdOk_pres {s s' : NotifyState} (hid : ∀ o, heapIdOf s' o = heapIdOf s o) {a : TAct}
    (ha : actIdOk s a) : actIdOk s' a :=
  actIdOk_mono (fun o i hv => by rw [hid o]; exact hv) ha

theorem WF.copy {s s' : NotifyState} (h : WF s) (h1 : s'.toasts = s.toasts)
    (h2 : s'.heap = s.heap) (h3 : s'.attached = s.attached) (h4 : s'.pending = s.pending)
    (h5 : s'.nextObj = s.nextObj) : WF s' := by
  refine ⟨?_, ?_, ?_, ?_, ?_, ?_, ?_, ?_, ?_⟩
  · rw [h1]; exact h.toastsNodup
  · rw [h2]; exact h.heapNodup
  · rw [h2, h5]; exact h.heapLt
  · rw [h2]; exact h.heapEl
  · rw [h1]
    intro p hp
    rw [heapIdOf_heap_eq h2]
    exact h.toastsHeap p hp
  · rw [h1, h3]; exact h.toastsAttached
  · rw [h3]; exact h.attachedNodup
  · rw [h3]
    intro e he
    rw [heapIdOf_heap_eq h2]
    exact h.attachedHeap e he
  · rw [h4]
    intro t ht
    exact actIdOk_pres (heapIdOf_heap_eq h2) (h.pendingOk t ht)

theorem nextObj_fresh {s : NotifyState} (h : WF s) : s.nextObj ∉ s.heap.map Prod.fst := by
  intro hm
  obtain ⟨v, hv⟩ := mem_keys_mapGet hm
  exact absurd (h.heapLt (s.nextObj, v) (mapGet_eq_some_mem hv)) (by omega)

theorem heapIdOf_mapSet_pres {s : NotifyState} {obj : Nat} {internal v : InternalToast}
    (hy : mapGet s.heap obj = some internal) (hv : v.id = internal.id) (o : Nat) :
    (mapGet (mapSet s.heap obj v) o).map InternalToast.id = heapIdOf s o := by
  rw [mapGet_mapSet]
  by_cases ho : o = obj
  · subst ho
    rw [if_pos rfl]
    simp [heapIdOf, hy, hv]
  · rw [if_neg ho]
    rfl

theorem heapIdOf_append_pres {s : NotifyState} {o : Nat} {i : String} (x : Nat × InternalToast)
    (hv : heapIdOf s o = some i) :
    (mapGet (s.heap ++ [x]) o).map InternalToast.id = some i := by
  unfold heapIdOf at hv
  cases hg : mapGet s.heap o with
  | none => rw [hg] at hv; simp at hv
  | some v =>
    rw [mapGet_append_left _ hg]
    rw [hg] at hv
    exact hv

theorem wf_stylesStage {s : NotifyState} (h : WF s) (r : ResolvedOptions) :
    WF (stylesStage s r) := by
  unfold stylesStage
  split
  · exact WF.copy h rfl rfl rfl rfl rfl
  · exact h

theorem wf_containerForCore {s : NotifyState} (h : WF s) (k : String) :
    WF (containerForCore s k).2 := by
  unfold containerForCore
  cases mapGet s.containers k with
  | none => exact WF.copy h rfl rfl rfl rfl rfl
  | some c => exact h

theorem wf_registerStage {s : NotifyState} (h : WF s) (rid : String) (r : ResolvedOptions)
    (cid : Nat) : WF (registerStage s rid r cid) := by
  have hfresh := nextObj_fresh h
  have hafresh : s.nextObj ∉ s.attached.map Prod.fst := fun hm => by
    obtain ⟨v, hv⟩ : ∃ v, heapIdOf s s.nextObj = some v := by
      have := h.attachedHeap _ hm
      cases hg : heapIdOf s s.nextObj with
      | none => rw [hg] at this; simp at this
      | some v => exact ⟨v, rfl⟩
    unfold heapIdOf at hv
    cases hg : mapGet s.heap s.nextObj with
    | none => rw [hg] at hv; simp at hv
    | some w => exact hfresh (List.mem_map_of_mem Prod.fst (mapGet_eq_some_mem hg))
  refine ⟨?_, ?_, ?_, ?_, ?_, ?_, ?_, ?_, ?_⟩
  · exact nodup_keys_mapSet h.toastsNodup
  · rw [show (registerStage s rid r cid).heap.map Prod.fst
        = s.heap.map Prod.fst ++ [s.nextObj] by simp [registerStage]]
    rw [List.nodup_append]
    refine ⟨h.heapNodup, by simp, ?_⟩
    intro a ha hb
    rw [List.mem_singleton] at hb
    subst hb
    exact hfresh ha
  · intro p hp
    rcases List.mem_append.1 hp with h1 | h1
    · have := h.heapLt p h1
      simp only [registerStage]
      omega
    · rw [List.mem_singleton] at h1
      subst h1
      simp [registerStage]
  · intro p hp
    rcases List.mem_append.1 hp with h1 | h1
    · exact h.heapEl p h1
    · rw [List.mem_singleton] at h1
      subst h1
      rfl
  · intro p hp
    rcases mem_mapSet hp with h1 | h1
    · subst h1
      show (mapGet (s.heap ++ [_]) s.nextObj).map InternalToast.id = some rid
      rw [mapGet_append_right _ (mapGet_eq_none_iff.2 hfresh)]
      simp [mapGet]
    · show (mapGet (s.heap ++ [_]) p.2).map InternalToast.id = some p.1
      exact heapIdOf_append_pres _ (h.toastsHeap p h1)
  · intro p hp
    rcases mem_mapSet hp with h1 | h1
    · subst h1
      simp [registerStage]
    · have := h.toastsAttached p h1
      simp only [registerStage, List.map_append]
      exact List.mem_append_left _ this
  · rw [show (registerStage s rid r cid).attached.map Prod.fst
        = s.attached.map Prod.fst ++ [s.nextObj] by simp [registerStage]]
    rw [List.nodup_append]
    refine ⟨h.attachedNodup, by simp, ?_⟩
    intro a ha hb
    rw [List.mem_singleton] at hb
    subst hb
    exact hafresh ha
  · intro e he
    rw [show (registerStage s rid r cid).attached.map Prod.fst
        = s.attached.map Prod.fst ++ [s.nextObj] by simp [registerStage]] at he
    rcases List.mem_append.1 he with h1 | h1
    · have := h.attachedHeap e h1
      cases hg : heapIdOf s e with
      | none => rw [hg] at this; simp at this
      | some v =>
        show ((mapGet (s.heap ++ [_]) e).map InternalToast.id).isSome = true
        rw [heapIdOf_append_pres _ hg]
        rfl
    · rw [List.mem_singleton] at h1
      subst h1
      show ((mapGet (s.heap ++ [_]) s.nextObj).map InternalToast.id).isSome = true
      rw [mapGet_append_right _ (mapGet_eq_none_iff.2 hfresh)]
      simp [mapGet]
  · intro t ht
    refine actIdOk_mono (s := s) ?_ (h.pendingOk t ht)
    intro o i hv
    show (mapGet (s.heap ++ [_]) o).map InternalToast.id = some i
    exact heapIdOf_append_pres _ hv

theorem wf_heapUpdate {s s' : NotifyState} (h : WF s) {obj : Nat} {internal v : InternalToast}
    (hy : mapGet s.heap obj = some internal) (h1 : s'.toasts = s.toasts)
    (h2 : s'.heap = mapSet s.heap obj v) (h3 : s'.attached = s.attached)
    (h5 : s'.nextObj = s.nextObj) (hvid : v.id = internal.id) (hvel : v.el = internal.el)
    (hp : ∀ t ∈ s'.pending, t ∈ s.pending ∨ t.act = TAct.fireDismiss internal.id obj) :
    WF s' := by
  have hidpres : ∀ o, heapIdOf s' o = heapIdOf s o := by
    intro o
    show (mapGet s'.heap o).map InternalToast.id = heapIdOf s o
    rw [h2]
    exact heapIdOf_mapSet_pres hy hvid o
  refine ⟨?_, ?_, ?_, ?_, ?_, ?_, ?_, ?_, ?_⟩
  · rw [h1]; exact h.toastsNodup
  · rw [h2]; exact nodup_keys_mapSet h.heapNodup
  · rw [h2, h5]
    intro p hp2
    rcases mem_mapSet hp2 with hq | hq
    · subst hq
      show obj < s.nextObj
      exact h.heapLt (obj, internal) (mapGet_eq_some_mem hy)
    · exact h.heapLt p hq
  · rw [h2]
    intro p hp2
    rcases mem_mapSet hp2 with hq | hq
    · subst hq
      show v.el = obj
      rw [hvel]
      exact h.heapEl (obj, internal) (mapGet_eq_some_mem hy)
    · exact h.heapEl p hq
  · rw [h1]
    intro p hp2
    rw [hidpres]
    exact h.toastsHeap p hp2
  · rw [h1, h3]; exact h.toastsAttached
  · rw [h3]; exact h.attachedNodup
  · rw [h3]
    intro e he
    rw [hidpres]
    exact h.attachedHeap e he
  · intro t ht
    rcases hp t ht with hq | hq
    · exact actIdOk_pres hidpres (h.pendingOk t hq)
    · rw [hq]
      show heapIdOf s' obj = some internal.id
      rw [hidpres]
      simp [heapIdOf, hy]

theorem wf_setAutoDismissCore {s : NotifyState} (h : WF s) (obj : Nat) :
    WF (setAutoDismissCore s obj) := by
  cases hy : mapGet s.heap obj with
  | none => rw [setAuto_none hy]; exact h
  | some internal =>
    by_cases hd : internal.opts.duration = FieldVal.val 0
    · rw [setAuto_zero hy hd]; exact h
    · rw [setAuto_eq hy hd]
      refine wf_heapUpdate h hy rfl rfl rfl rfl rfl rfl ?_
      intro t ht
      rcases List.mem_append.1 ht with h1 | h1
      · exact Or.inl (mem_clearRec h1)
      · rw [List.mem_singleton] at h1
        subst h1
        exact Or.inr rfl

theorem wf_dismissCore {s : NotifyState} (h : WF s) (id : String) : WF (dismissCore s id) := by
  cases hx : mapGet s.toasts id with
  | none => rw [dismissCore_none hx]; exact h
  | some obj =>
    cases hy : mapGet s.heap obj with
    | none => rw [dismissCore_noheap hx hy]; exact h
    | some internal =>
      rw [dismissCore_eq hx hy]
      refine ⟨h.toastsNodup, h.heapNodup, h.heapLt, h.heapEl, h.toastsHeap, h.toastsAttached,
        h.attachedNodup, h.attachedHeap, ?_⟩
      intro t ht
      rcases List.mem_append.1 ht with h1 | h1
      · exact h.pendingOk t (mem_clearRec h1)
      · rw [List.mem_singleton] at h1
        subst h1
        show (heapIdOf _ obj).isSome = true
        simp [heapIdOf, hy]

theorem wf_removalCore {s : NotifyState} (h : WF s) (obj : Nat) : WF (removalCore s obj) := by
  cases hy : mapGet s.heap obj with
  | none => rw [removalCore_none hy]; exact h
  | some internal =>
    rw [removalCore_eq hy]
    have hel : internal.el = obj := h.heapEl (obj, internal) (mapGet_eq_some_mem hy)
    have hfilter_keys : ∀ e,
        e ∈ (s.attached.filter (fun p => if p.1 = internal.el then false else true)).map Prod.fst →
        e ∈ s.attached.map Prod.fst := by
      intro e he
      obtain ⟨q, hq1, hq2⟩ := List.mem_map.1 he
      exact hq2 ▸ List.mem_map_of_mem Prod.fst (List.mem_of_mem_filter hq1)
    refine ⟨?_, h.heapNodup, h.heapLt, h.heapEl, ?_, ?_, ?_, ?_, ?_⟩
    · exact ((mapDelete_sublist _ _).map Prod.fst).nodup h.toastsNodup
    · intro p hp
      exact h.toastsHeap p (mem_mapDelete.1 hp).1
    · intro p hp
      obtain ⟨hp1, hp2⟩ := mem_mapDelete.1 hp
      have hobj : p.2 ≠ obj := by
        intro hq
        have h2 := h.toastsHeap p hp1
        rw [hq] at h2
        rw [show heapIdOf s obj = some internal.id by simp [heapIdOf, hy]] at h2
        injection h2 with h3
        exact hp2 h3.symm
      have hmem := h.toastsAttached p hp1
      obtain ⟨q, hq1, hq2⟩ := List.mem_map.1 hmem
      refine List.mem_map.2 ⟨q, List.mem_filter.2 ⟨hq1, ?_⟩, hq2⟩
      rw [hel, hq2]
      simp [hobj]
    · exact ((List.filter_sublist _).map Prod.fst).nodup h.attachedNodup
    · intro e he
      exact h.attachedHeap e (hfilter_keys e he)
    · intro t ht
      exact h.pendingOk t ht

theorem wf_enterCore {s : NotifyState} (h : WF s) (obj : Nat) : WF (enterCore s obj) := by
  rcases enterCore_chars s obj with he | ⟨internal, hh, hy, hz, hg, he⟩
  · rw [he]; exact h
  · rw [he]
    refine wf_heapUpdate h hy rfl rfl rfl rfl rfl rfl ?_
    intro t ht
    exact Or.inl (mem_removeTimer.1 ht).1

theorem wf_leaveCore {s : NotifyState} (h : WF s) (obj : Nat) : WF (leaveCore s obj) := by
  rcases leaveCore_chars s obj with he | ⟨internal, hy, hr, hg, he⟩
  · rw [he]; exact h
  · rw [he]
    refine wf_heapUpdate h hy rfl rfl rfl rfl rfl rfl ?_
    intro t ht
    rcases List.mem_append.1 ht with h1 | h1
    · exact Or.inl h1
    · rw [List.mem_singleton] at h1
      subst h1
      exact Or.inr rfl

theorem wf_runAct {s : NotifyState} (h : WF s) (a : TAct) : WF (runAct s a) := by
  cases a with
  | fireDismiss i o => exact wf_dismissCore h i
  | removal o => exact wf_removalCore h o

theorem wf_fireTimer {s : NotifyState} (h : WF s) (t : Timer) : WF (fireTimer s t) := by
  unfold fireTimer
  refine wf_runAct ?_ t.act
  refine ⟨h.toastsNodup, h.heapNodup, h.heapLt, h.heapEl, h.toastsHeap, h.toastsAttached,
    h.attachedNodup, h.attachedHeap, ?_⟩
  intro u hu
  exact h.pendingOk u (mem_removeTimer.1 hu).1

theorem wf_runTimers : ∀ (fuel : Nat) (s : NotifyState) (dl : Nat), WF s →
    WF (runTimers fuel s dl) := by
  intro fuel
  induction fuel with
  | zero =>
    intro s dl h
    exact WF.copy h rfl rfl rfl rfl rfl
  | succ fuel ih =>
    intro s dl h
    rw [runTimers]
    split
    · exact WF.copy h rfl rfl rfl rfl rfl
    next t ht => exact ih _ _ (wf_fireTimer h t)

theorem wf_foldl_dismiss : ∀ (l : List String) (s : NotifyState), WF s →
    WF (l.foldl dismissCore s)
  | [], _, h => h
  | x :: xs, s, h => wf_foldl_dismiss xs _ (wf_dismissCore h x)

theorem wf_step {s : NotifyState} (h : WF s) (op : Op) : WF (step s op) := by
  cases op with
  | notifyOp o =>
    exact wf_setAutoDismissCore (wf_registerStage (wf_containerForCore (wf_stylesStage h _) _) _ _ _) _
  | notifyStrOp msg o =>
    exact wf_setAutoDismissCore (wf_registerStage (wf_containerForCore (wf_stylesStage h _) _) _ _ _) _
  | successOp o =>
    exact wf_setAutoDismissCore (wf_registerStage (wf_containerForCore (wf_stylesStage h _) _) _ _ _) _
  | errorOp o =>
    exact wf_setAutoDismissCore (wf_registerStage (wf_containerForCore (wf_stylesStage h _) _) _ _ _) _
  | infoOp o =>
    exact wf_setAutoDismissCore (wf_registerStage (wf_containerForCore (wf_stylesStage h _) _) _ _ _) _
  | warningOp o =>
    exact wf_setAutoDismissCore (wf_registerStage (wf_containerForCore (wf_stylesStage h _) _) _ _ _) _
  | dismissOp id => exact wf_dismissCore h id
  | clearOp => exact wf_foldl_dismiss _ _ h
  | configureOp o => exact WF.copy h rfl rfl rfl rfl rfl
  | tick dt => exact wf_runTimers _ _ _ h
  | enter obj => exact wf_enterCore h obj
  | leave obj => exact wf_leaveCore h obj

theorem wf_init : WF init := by
  refine ⟨?_, ?_, ?_, ?_, ?_, ?_, ?_, ?_, ?_⟩ <;> simp [init]

theorem wf_run : ∀ (ops : List Op) (s : NotifyState), WF s → WF (run s ops)
  | [], _, h => h
  | op :: rest, s, h => wf_run rest _ (wf_step h op)

theorem reachable_wf {s : NotifyState} (h : Reachable s) : WF s := by
  obtain ⟨ops, rfl⟩ := h
  exact wf_run ops init wf_init

/-! ## Field-stability facts for the core operations -/

theorem dismissCore_skeleton (s : NotifyState) (id : String) :
    (dismissCore s id).toasts = s.toasts ∧ (dismissCore s id).heap = s.heap ∧
    (dismissCore s id).attached = s.attached ∧ (dismissCore s id).containers = s.containers ∧
    (dismissCore s id).nextObj = s.nextObj ∧ (dismissCore s id).events = s.events ∧
    (dismissCore s id).globalConfig = s.globalConfig := by
  cases hx : mapGet s.toasts id with
  | none => rw [dismissCore_none hx]; exact ⟨rfl, rfl, rfl, rfl, rfl, rfl, rfl⟩
  | some obj =>
    cases hy : mapGet s.heap obj with
    | none => rw [dismissCore_noheap hx hy]; exact ⟨rfl, rfl, rfl, rfl, rfl, rfl, rfl⟩
    | some internal => rw [dismissCore_eq hx hy]; exact ⟨rfl, rfl, rfl, rfl, rfl, rfl, rfl⟩

theorem removalCore_skeleton (s : NotifyState) (obj : Nat) :
    (removalCore s obj).heap = s.heap ∧ (removalCore s obj).containers = s.containers ∧
    (removalCore s obj).nextObj = s.nextObj ∧ (removalCore s obj).pending = s.pending ∧
    (removalCore s obj).nextTimer = s.nextTimer ∧
    (removalCore s obj).globalConfig = s.globalConfig := by
  cases hy : mapGet s.heap obj with
  | none => rw [removalCore_none hy]; exact ⟨rfl, rfl, rfl, rfl, rfl, rfl⟩
  | some internal => rw [removalCore_eq hy]; exact ⟨rfl, rfl, rfl, rfl, rfl, rfl⟩

theorem setAuto_skeleton (s : NotifyState) (obj : Nat) :
    (setAutoDismissCore s obj).toasts = s.toasts ∧
    (setAutoDismissCore s obj).attached = s.attached ∧
    (setAutoDismissCore s obj).containers = s.containers ∧
    (setAutoDismissCore s obj).nextObj = s.nextObj ∧
    (setAutoDismissCore s obj).events = s.events ∧
    (setAutoDismissCore s obj).globalConfig = s.globalConfig := by
  cases hy : mapGet s.heap obj with
  | none => rw [setAuto_none hy]; exact ⟨rfl, rfl, rfl, rfl, rfl, rfl⟩
  | some internal =>
    by_cases hd : internal.opts.duration = FieldVal.val 0
    · rw [setAuto_zero hy hd]; exact ⟨rfl, rfl, rfl, rfl, rfl, rfl⟩
    · rw [setAuto_eq hy hd]; exact ⟨rfl, rfl, rfl, rfl, rfl, rfl⟩

theorem enterCore_skeleton (s : NotifyState) (obj : Nat) :
    (enterCore s obj).toasts = s.toasts ∧ (enterCore s obj).attached = s.attached ∧
    (enterCore s obj).containers = s.containers ∧ (enterCore s obj).nextObj = s.nextObj ∧
    (enterCore s obj).events = s.events ∧ (enterCore s obj).nextTimer = s.nextTimer ∧
    (enterCore s obj).globalConfig = s.globalConfig := by
  rcases enterCore_chars s obj with he | ⟨internal, hh, hy, hz, hg, he⟩ <;>
    (rw [he]; exact ⟨rfl, rfl, rfl, rfl, rfl, rfl, rfl⟩)

theorem leaveCore_skeleton (s : NotifyState) (obj : Nat) :
    (leaveCore s obj).toasts = s.toasts ∧ (leaveCore s obj).attached = s.attached ∧
    (leaveCore s obj).containers = s.containers ∧ (leaveCore s obj).nextObj = s.nextObj ∧
    (leaveCore s obj).events = s.events ∧
    (leaveCore s obj).globalConfig = s.globalConfig := by
  rcases leaveCore_chars s obj with he | ⟨internal, hy, hr, hg, he⟩ <;>
    (rw [he]; exact ⟨rfl, rfl, rfl, rfl, rfl, rfl⟩)

theorem runAct_skeleton (s : NotifyState) (a : TAct) :
    (runAct s a).heap = s.heap ∧ (runAct s a).containers = s.containers ∧
    (runAct s a).nextObj = s.nextObj ∧ (runAct s a).globalConfig = s.globalConfig := by
  cases a with
  | fireDismiss i o =>
    obtain ⟨_, h2, _, h4, h5, _, h7⟩ := dismissCore_skeleton s i
    exact ⟨h2, h4, h5, h7⟩
  | removal o =>
    obtain ⟨h1, h2, h3, _, _, h6⟩ := removalCore_skeleton s o
    exact ⟨h1, h2, h3, h6⟩

theorem fireTimer_skeleton (s : NotifyState) (t : Timer) :
    (fireTimer s t).heap = s.heap ∧ (fireTimer s t).containers = s.containers ∧
    (fireTimer s t).nextObj = s.nextObj ∧ (fireTimer s t).globalConfig = s.globalConfig := by
  unfold fireTimer
  exact runAct_skeleton _ t.act

theorem runTimers_skeleton : ∀ (fuel : Nat) (s : NotifyState) (dl : Nat),
    (runTimers fuel s dl).heap = s.heap ∧ (runTimers fuel s dl).containers = s.containers ∧
    (runTimers fuel s dl).nextObj = s.nextObj ∧
    (runTimers fuel s dl).globalConfig = s.globalConfig := by
  intro fuel
  induction fuel with
  | zero => intro s dl; exact ⟨rfl, rfl, rfl, rfl⟩
  | succ fuel ih =>
    intro s dl
    rw [runTimers]
    split
    · exact ⟨rfl, rfl, rfl, rfl⟩
    next t ht =>
      obtain ⟨i1, i2, i3, i4⟩ := ih (fireTimer s t) dl
      obtain ⟨f1, f2, f3, f4⟩ := fireTimer_skeleton s t
      exact ⟨i1.trans f1, i2.trans f2, i3.trans f3, i4.trans f4⟩

theorem foldl_dismiss_skeleton : ∀ (l : List String) (s : NotifyState),
    ((l.foldl dismissCore s).toasts = s.toasts ∧ (l.foldl dismissCore s).heap = s.heap ∧
      (l.foldl dismissCore s).attached = s.attached ∧
      (l.foldl dismissCore s).containers = s.containers ∧
      (l.foldl dismissCore s).nextObj = s.nextObj ∧
      (l.foldl dismissCore s).events = s.events ∧
      (l.foldl dismissCore s).globalConfig = s.globalConfig)
  | [], _ => ⟨rfl, rfl, rfl, rfl, rfl, rfl, rfl⟩
  | x :: xs, s => by
    obtain ⟨i1, i2, i3, i4, i5, i6, i7⟩ := foldl_dismiss_skeleton xs (dismissCore s x)
    obtain ⟨d1, d2, d3, d4, d5, d6, d7⟩ := dismissCore_skeleton s x
    exact ⟨i1.trans d1, i2.trans d2, i3.trans d3, i4.trans d4, i5.trans d5, i6.trans d6,
      i7.trans d7⟩

theorem stylesStage_skeleton (s : NotifyState) (r : ResolvedOptions) :
    (stylesStage s r).toasts = s.toasts ∧ (stylesStage s r).heap = s.heap ∧
    (stylesStage s r).attached = s.attached ∧ (stylesStage s r).containers = s.containers ∧
    (stylesStage s r).nextObj = s.nextObj ∧ (stylesStage s r).pending = s.pending ∧
    (stylesStage s r).events = s.events ∧ (stylesStage s r).now = s.now ∧
    (stylesStage s r).nextTimer = s.nextTimer ∧
    (stylesStage s r).globalConfig = s.globalConfig := by
  unfold stylesStage
  split <;> exact ⟨rfl, rfl, rfl, rfl, rfl, rfl, rfl, rfl, rfl, rfl⟩

theorem containerForCore_skeleton (s : NotifyState) (k : String) :
    (containerForCore s k).2.toasts = s.toasts ∧ (containerForCore s k).2.heap = s.heap ∧
    (containerForCore s k).2.attached = s.attached ∧
    (containerForCore s k).2.nextObj = s.nextObj ∧
    (containerForCore s k).2.pending = s.pending ∧
    (containerForCore s k).2.events = s.events ∧ (containerForCore s k).2.now = s.now ∧
    (containerForCore s k).2.nextTimer = s.nextTimer ∧
    (containerForCore s k).2.globalConfig = s.globalConfig := by
  unfold containerForCore
  split <;> exact ⟨rfl, rfl, rfl, rfl, rfl, rfl, rfl, rfl, rfl⟩

theorem containerForCore_get_pres {s : NotifyState} {k' : String} {c' : Nat}
    (h : mapGet s.containers k' = some c') (k : String) :
    mapGet (containerForCore s k).2.containers k' = some c' := by
  unfold containerForCore
  split
  · exact h
  · exact mapGet_append_left _ h

/-! ## Distinct identifiers along fresh runs -/

theorem map_snd_mapSet_eq {κ β γ : Type} [DecidableEq κ] {m : List (κ × β)} {k : κ}
    {v v0 : β} (h : mapGet m k = some v0) (g : β → γ) (hg : g v = g v0) :
    (mapSet m k v).map (fun p => g p.2) = m.map (fun p => g p.2) := by
  induction m with
  | nil => simp [mapGet] at h
  | cons q rest ih =>
    obtain ⟨qk, qv⟩ := q
    by_cases h1 : qk = k
    · subst h1
      simp [mapGet] at h
      simp [mapSet, hg, h]
    · simp only [mapGet, if_neg h1] at h
      simp only [mapSet, if_neg h1, List.map_cons]
      rw [ih h]

theorem distinct_of_heap_eq {s s' : NotifyState} (hh : s'.heap = s.heap)
    (hd : DistinctIds s) : DistinctIds s' := by
  unfold DistinctIds
  rw [hh]
  exact hd

theorem distinct_heapUpdate {s s' : NotifyState} {obj : Nat} {internal v : InternalToast}
    (hd : DistinctIds s) (hy : mapGet s.heap obj = some internal)
    (h2 : s'.heap = mapSet s.heap obj v) (hvid : v.id = internal.id) : DistinctIds s' := by
  unfold DistinctIds
  rw [h2, map_snd_mapSet_eq hy InternalToast.id hvid]
  exact hd

theorem distinct_setAutoDismissCore {s : NotifyState} (hd : DistinctIds s) (obj : Nat) :
    DistinctIds (setAutoDismissCore s obj) := by
  cases hy : mapGet s.heap obj with
  | none => rw [setAuto_none hy]; exact hd
  | some internal =>
    by_cases hdd : internal.opts.duration = FieldVal.val 0
    · rw [setAuto_zero hy hdd]; exact hd
    · rw [setAuto_eq hy hdd]
      exact distinct_heapUpdate hd hy rfl rfl

theorem distinct_registerStage {s : NotifyState} (hd : DistinctIds s) {rid : String}
    (hr : rid ∉ heapIds s) (r : ResolvedOptions) (cid : Nat) :
    DistinctIds (registerStage s rid r cid) := by
  have hh : (registerStage s rid r cid).heap =
      s.heap ++ [(s.nextObj, ⟨rid, s.nextObj, none, r.duration.durOrZero, s.now, r⟩)] := rfl
  unfold DistinctIds
  rw [hh, List.map_append, List.nodup_append]
  refine ⟨hd, by simp, ?_⟩
  intro a ha hb
  simp only [List.map_cons, List.map_nil, List.mem_singleton] at hb
  subst hb
  exact hr ha

theorem distinct_enterCore {s : NotifyState} (hd : DistinctIds s) (obj : Nat) :
    DistinctIds (enterCore s obj) := by
  rcases enterCore_chars s obj with he | ⟨internal, hh, hy, hz, hg, he⟩
  · rw [he]; exact hd
  · rw [he]; exact distinct_heapUpdate hd hy rfl rfl

theorem distinct_leaveCore {s : NotifyState} (hd : DistinctIds s) (obj : Nat) :
    DistinctIds (leaveCore s obj) := by
  rcases leaveCore_chars s obj with he | ⟨internal, hy, hr, hg, he⟩
  · rw [he]; exact hd
  · rw [he]; exact distinct_heapUpdate hd hy rfl rfl

theorem distinct_step {s : NotifyState} (hd : DistinctIds s) {op : Op}
    (hf : freshStep s op = true) : DistinctIds (step s op) := by
  cases op with
  | dismissOp id => exact distinct_of_heap_eq (dismissCore_skeleton s id).2.1 hd
  | clearOp => exact distinct_of_heap_eq (foldl_dismiss_skeleton _ s).2.1 hd
  | configureOp o => exact distinct_of_heap_eq rfl hd
  | tick dt => exact distinct_of_heap_eq (runTimers_skeleton _ s _).1 hd
  | enter obj => exact distinct_enterCore hd obj
  | leave obj => exact distinct_leaveCore hd obj
  | notifyOp o =>
    have hfr : assignedId s o ∉ heapIds s := by
      simpa [freshStep, Op.baseOf] using hf
    refine distinct_setAutoDismissCore (distinct_registerStage ?_ ?_ _ _) _
    · exact distinct_of_heap_eq
        ((containerForCore_skeleton _ _).2.1.trans (stylesStage_skeleton s _).2.1) hd
    · rw [show heapIds (containerForCore (stylesStage s (resolvedWithId s o)) (notifyKey s o)).2
          = heapIds s by
        unfold heapIds
        rw [(containerForCore_skeleton _ _).2.1, (stylesStage_skeleton s _).2.1]]
      exact hfr
  | notifyStrOp msg o =>
    have hfr : assignedId s (mkBase msg o) ∉ heapIds s := by
      simpa [freshStep, Op.baseOf] using hf
    refine distinct_setAutoDismissCore (distinct_registerStage ?_ ?_ _ _) _
    · exact distinct_of_heap_eq
        ((containerForCore_skeleton _ _).2.1.trans (stylesStage_skeleton s _).2.1) hd
    · rw [show heapIds (containerForCore (stylesStage s (resolvedWithId s (mkBase msg o)))
            (notifyKey s (mkBase msg o))).2 = heapIds s by
        unfold heapIds
        rw [(containerForCore_skeleton _ _).2.1, (stylesStage_skeleton s _).2.1]]
      exact hfr
  | successOp o =>
    have hfr : assignedId s (withType o .success) ∉ heapIds s := by
      simpa [freshStep, Op.baseOf] using hf
    refine distinct_setAutoDismissCore (distinct_registerStage ?_ ?_ _ _) _
    · exact distinct_of_heap_eq
        ((containerForCore_skeleton _ _).2.1.trans (stylesStage_skeleton s _).2.1) hd
    · rw [show heapIds (containerForCore (stylesStage s (resolvedWithId s (withType o .success)))
            (notifyKey s (withType o .success))).2 = heapIds s by
        unfold heapIds
        rw [(containerForCore_skeleton _ _).2.1, (stylesStage_skeleton s _).2.1]]
      exact hfr
  | errorOp o =>
    have hfr : assignedId s (withType o .error) ∉ heapIds s := by
      simpa [freshStep, Op.baseOf] using hf
    refine distinct_setAutoDismissCore (distinct_registerStage ?_ ?_ _ _) _
    · exact distinct_of_heap_eq
        ((containerForCore_skeleton _ _).2.1.trans (stylesStage_skeleton s _).2.1) hd
    · rw [show heapIds (containerForCore (stylesStage s (resolvedWithId s (withType o .error)))
            (notifyKey s (withType o .error))).2 = heapIds s by
        unfold heapIds
        rw [(containerForCore_skeleton _ _).2.1, (stylesStage_skeleton s _).2.1]]
      exact hfr
  | infoOp o =>
    have hfr : assignedId s (withType o .info) ∉ heapIds s := by
      simpa [freshStep, Op.baseOf] using hf
    refine distinct_setAutoDismissCore (distinct_registerStage ?_ ?_ _ _) _
    · exact distinct_of_heap_eq
        ((containerForCore_skeleton _ _).2.1.trans (stylesStage_skeleton s _).2.1) hd
    · rw [show heapIds (containerForCore (stylesStage s (resolvedWithId s (withType o .info)))
            (notifyKey s (withType o .info))).2 = heapIds s by
        unfold heapIds
        rw [(containerForCore_skeleton _ _).2.1, (stylesStage_skeleton s _).2.1]]
      exact hfr
  | warningOp o =>
    have hfr : assignedId s (withType o .warning) ∉ heapIds s := by
      simpa [freshStep, Op.baseOf] using hf
    refine distinct_setAutoDismissCore (distinct_registerStage ?_ ?_ _ _) _
    · exact distinct_of_heap_eq
        ((containerForCore_skeleton _ _).2.1.trans (stylesStage_skeleton s _).2.1) hd
    · rw [show heapIds (containerForCore (stylesStage s (resolvedWithId s (withType o .warning)))
            (notifyKey s (withType o .warning))).2 = heapIds s by
        unfold heapIds
        rw [(containerForCore_skeleton _ _).2.1, (stylesStage_skeleton s _).2.1]]
      exact hfr

theorem freshIds_cons {s : NotifyState} {op : Op} {rest : List Op}
    (h : freshIds s (op :: rest) = true) :
    freshStep s op = true ∧ freshIds (step s op) rest = true := by
  simpa [freshIds, Bool.and_eq_true] using h

theorem distinct_run : ∀ (ops : List Op) (s : NotifyState), DistinctIds s →
    freshIds s ops = true → DistinctIds (run s ops)
  | [], _, hd, _ => hd
  | op :: rest, s, hd, hf => by
    obtain ⟨h1, h2⟩ := freshIds_cons hf
    exact distinct_run rest _ (distinct_step hd h1) h2

theorem distinct_init : DistinctIds init := by
  simp [DistinctIds, init]

theorem freshIds_append (s : NotifyState) (l1 l2 : List Op) :
    freshIds s (l1 ++ l2) = (freshIds s l1 && freshIds (run s l1) l2) := by
  induction l1 generalizing s with
  | nil => simp [freshIds, run]
  | cons op rest ih => simp [freshIds, run, ih, Bool.and_assoc]

/-! ## String facts for container keys and generated identifiers -/

theorem posStr_inj : ∀ p1 p2 : Position, p1.str = p2.str → p1 = p2 := by
  intro p1 p2
  cases p1 <;> cases p2 <;> decide

theorem posStr_no_bar : ∀ p : Position, '|' ∉ p.str.data := by
  intro p
  cases p <;> decide

theorem bar_split : ∀ (xs ys as bs : List Char), '|' ∉ xs → '|' ∉ ys →
    xs ++ '|' :: as = ys ++ '|' :: bs → xs = ys ∧ as = bs := by
  intro xs
  induction xs with
  | nil =>
    intro ys as bs _ hy h
    cases ys with
    | nil => simpa using h
    | cons y ys' =>
      rw [List.nil_append, List.cons_append] at h
      injection h with h1 h2
      exact absurd (by rw [h1]; exact List.mem_cons_self y ys') hy
  | cons x xs' ih =>
    intro ys as bs hx hy h
    cases ys with
    | nil =>
      rw [List.nil_append, List.cons_append] at h
      injection h with h1 h2
      exact absurd (by rw [← h1]; exact List.mem_cons_self x xs') hx
    | cons y ys' =>
      rw [List.cons_append, List.cons_append] at h
      injection h with h1 h2
      subst h1
      have hx' : '|' ∉ xs' := fun hm => hx (List.mem_cons_of_mem _ hm)
      have hy' : '|' ∉ ys' := fun hm => hy (List.mem_cons_of_mem _ hm)
      obtain ⟨e1, e2⟩ := ih ys' as bs hx' hy' h2
      exact ⟨by rw [e1], e2⟩

theorem bar_absent : ∀ (xs as zs : List Char), '|' ∉ zs → xs ++ '|' :: as = zs → False := by
  intro xs as zs hz h
  subst h
  exact hz (List.mem_append_right _ (List.mem_cons_self _ _))

theorem string_append_empty (s : String) : s ++ "" = s := by
  apply String.ext
  simp [String.data_append]

theorem makeId_ne_empty (n : Nat) : makeId n ≠ "" := by
  intro h
  have h2 := congrArg String.data h
  rw [show (makeId n).data = 't' :: '_' :: (Nat.repr n).data from by
    unfold makeId
    rw [String.data_append]
    rfl] at h2
  simp at h2

theorem containerKey_val_inj (p1 p2 : Position) (c1 c2 : String)
    (h : containerKey (.val p1) (.val c1) = containerKey (.val p2) (.val c2)) :
    p1 = p2 ∧ c1 = c2 := by
  simp only [containerKey, posStr, clsStr] at h
  by_cases hc1 : c1 = "" <;> by_cases hc2 : c2 = ""
  · rw [if_pos hc1, if_pos hc2, string_append_empty, string_append_empty] at h
    exact ⟨posStr_inj _ _ h, hc1.trans hc2.symm⟩
  · rw [if_pos hc1, if_neg hc2, string_append_empty] at h
    have hd := congrArg String.data h
    simp only [String.data_append, show "|".data = ['|'] from rfl,
      List.singleton_append] at hd
    exact absurd hd.symm (fun hh => bar_absent _ _ _ (posStr_no_bar p1) hh)
  · rw [if_neg hc1, if_pos hc2, string_append_empty] at h
    have hd := congrArg String.data h
    simp only [String.data_append, show "|".data = ['|'] from rfl,
      List.singleton_append] at hd
    exact absurd hd (fun hh => bar_absent _ _ _ (posStr_no_bar p2) hh)
  · rw [if_neg hc1, if_neg hc2] at h
    have hd := congrArg String.data h
    simp only [String.data_append, show "|".data = ['|'] from rfl,
      List.singleton_append] at hd
    obtain ⟨e1, e2⟩ := bar_split _ _ _ _ (posStr_no_bar p1) (posStr_no_bar p2) hd
    exact ⟨posStr_inj _ _ (String.ext e1), String.ext e2⟩

/-! ## Container bindings survive every operation -/

theorem notifyRet_snd (s : NotifyState) (b : NotifyOptions) :
    (notifyRet s b).2 = setAutoDismissCore
      (registerStage (containerForCore (stylesStage s (resolvedWithId s b)) (notifyKey s b)).2
        (assignedId s b) (resolvedWithId s b)
        (containerForCore (stylesStage s (resolvedWithId s b)) (notifyKey s b)).1)
      (containerForCore (stylesStage s (resolvedWithId s b)) (notifyKey s b)).2.nextObj := rfl

theorem registerStage_containers (s : NotifyState) (rid : String) (r : ResolvedOptions)
    (cid : Nat) : (registerStage s rid r cid).containers = s.containers := rfl

theorem notifyRet_containers_pres {s : NotifyState} {k : String} {c : Nat}
    (h : mapGet s.containers k = some c) (b : NotifyOptions) :
    mapGet (notifyRet s b).2.containers k = some c := by
  rw [notifyRet_snd, (setAuto_skeleton _ _).2.2.1, registerStage_containers]
  refine containerForCore_get_pres ?_ _
  rw [(stylesStage_skeleton s _).2.2.2.1]
  exact h

theorem step_containers_pres {s : NotifyState} {k : String} {c : Nat}
    (h : mapGet s.containers k = some c) (op : Op) :
    mapGet (step s op).containers k = some c := by
  cases op with
  | notifyOp o => exact notifyRet_containers_pres h o
  | notifyStrOp msg o => exact notifyRet_containers_pres h (mkBase msg o)
  | successOp o => exact notifyRet_containers_pres h (withType o .success)
  | errorOp o => exact notifyRet_containers_pres h (withType o .error)
  | infoOp o => exact notifyRet_containers_pres h (withType o .info)
  | warningOp o => exact notifyRet_containers_pres h (withType o .warning)
  | dismissOp id =>
    show mapGet (dismissCore s id).containers k = some c
    rw [(dismissCore_skeleton s id).2.2.2.1]
    exact h
  | clearOp =>
    show mapGet ((s.toasts.map Prod.fst).foldl dismissCore s).containers k = some c
    rw [(foldl_dismiss_skeleton _ s).2.2.2.1]
    exact h
  | configureOp o => exact h
  | tick dt =>
    show mapGet (tickCore s dt).containers k = some c
    unfold tickCore
    rw [(runTimers_skeleton _ s _).2.1]
    exact h
  | enter obj =>
    show mapGet (enterCore s obj).containers k = some c
    rw [(enterCore_skeleton s obj).2.2.1]
    exact h
  | leave obj =>
    show mapGet (leaveCore s obj).containers k = some c
    rw [(leaveCore_skeleton s obj).2.2.1]
    exact h

theorem run_containers_pres {s : NotifyState} {k : String} {c : Nat} :
    ∀ (ops : List Op), mapGet s.containers k = some c →
      mapGet (run s ops).containers k = some c := by
  intro ops
  induction ops generalizing s with
  | nil => intro h; exact h
  | cons op rest ih =>
    intro h
    exact ih (step_containers_pres h op)

/-! ## C8 — container reuse and key uniqueness -/

/-- C8: the container key built from a (position, containerClass) pair is
injective — distinct pairs never share a key; a `containerFor` lookup that
hits the cache returns the cached container identity-unchanged and leaves
the state untouched; and a cached key-to-container binding survives every
subsequent public operation, so two notify calls resolving to the same pair
attach to the identity-equal container element. -/
theorem container_reuse_and_key_injective :
    (∀ (p1 p2 : Position) (c1 c2 : String),
      containerKey (.val p1) (.val c1) = containerKey (.val p2) (.val c2) →
        p1 = p2 ∧ c1 = c2) ∧
    (∀ (s : NotifyState) (k : String) (c : Nat), mapGet s.containers k = some c →
      (containerForCore s k).1 = c ∧ (containerForCore s k).2 = s) ∧
    (∀ (s : NotifyState) (ops : List Op) (k : String) (c : Nat),
      mapGet s.containers k = some c → mapGet (run s ops).containers k = some c) := by
  refine ⟨containerKey_val_inj, ?_, ?_⟩
  · intro s k c h
    unfold containerForCore
    split
    next c' hc =>
      rw [h] at hc
      injection hc with hcc
      exact ⟨hcc.symm ▸ rfl, rfl⟩
    next hc =>
      rw [h] at hc
      exact Option.noConfusion hc
  · intro s ops k c h
    exact run_containers_pres ops h

theorem container_reuse_witness :
    mapGet (run init [Op.notifyOp {}]).containers "top-right" = some 0 ∧
    mapGet (run (run init [Op.notifyOp {}])
      [Op.notifyOp {}, Op.tick 9000]).containers "top-right" = some 0 :=
  ⟨by decide,
    container_reuse_and_key_injective.2.2 (run init [Op.notifyOp {}])
      [Op.notifyOp {}, Op.tick 9000] "top-right" 0 (by decide)⟩

/-! ## C7 — notify returns a usable identifier -/

theorem keyCount_mapSet {κ β : Type} [DecidableEq κ] {m : List (κ × β)} {k : κ} {v : β}
    (hn : (m.map Prod.fst).Nodup) : keyCount (mapSet m k v) k = 1 := by
  unfold keyCount
  rw [keys_mapSet]
  by_cases hk : k ∈ m.map Prod.fst
  · rw [if_pos hk]
    exact List.count_eq_one_of_mem hn hk
  · rw [if_neg hk, List.count_append]
    rw [List.count_eq_zero.2 hk]
    simp

/-- C7: in every reachable state (the rendering surface is present in this
model), `notify` returns a non-empty identifier — the resolved `id` when
truthy, else a generated `"t_…"` one — and immediately afterwards the
registry holds exactly one entry for that identifier. -/
theorem notify_returns_id_single_entry (s : NotifyState) (b : NotifyOptions)
    (h : Reachable s) :
    (notifyRet s b).1 ≠ "" ∧
    keyCount (notifyRet s b).2.toasts (notifyRet s b).1 = 1 := by
  have hwf := reachable_wf h
  constructor
  · show assignedId s b ≠ ""
    unfold assignedId
    split
    next htr =>
      cases hf : (resolveOpts s.globalConfig b).id with
      | undef => rw [hf] at htr; simp [FieldVal.truthyStr] at htr
      | val v =>
        rw [hf] at htr
        simpa [FieldVal.truthyStr, FieldVal.getD] using htr
    next => exact makeId_ne_empty _
  · show keyCount (notifyRet s b).2.toasts (assignedId s b) = 1
    rw [notifyRet_snd, (setAuto_skeleton _ _).1]
    show keyCount (mapSet (containerForCore (stylesStage s (resolvedWithId s b))
      (notifyKey s b)).2.toasts (assignedId s b)
      (containerForCore (stylesStage s (resolvedWithId s b)) (notifyKey s b)).2.nextObj)
      (assignedId s b) = 1
    refine keyCount_mapSet ?_
    rw [(containerForCore_skeleton _ _).1, (stylesStage_skeleton s _).1]
    exact hwf.toastsNodup

theorem notify_returns_id_witness :
    Reachable init ∧
    ((notifyRet init {}).1 ≠ "" ∧
      keyCount (notifyRet init {}).2.toasts (notifyRet init {}).1 = 1) :=
  ⟨⟨[], rfl⟩, notify_returns_id_single_entry init {} ⟨[], rfl⟩⟩

/-! ## C9 — option precedence and configure -/

/-- C9: every resolved option field equals the call-supplied value when the
call record carries the property (even one explicitly set to `undefined`),
otherwise the configured value when the configuration carries it, otherwise
the built-in default; `resolveOpts` applies exactly this rule to each of the
thirteen fields; `configure` shallow-merges its fields into the process-wide
configuration (new fields win per property), and it changes nothing but the
configuration — in particular already-shown toasts (registry, instances,
attached elements, timers) are unaffected. -/
theorem option_precedence_and_configure_merge :
    (∀ (α : Type) (d : FieldVal α) (g c : Option (FieldVal α)),
      (∀ f, c = some f → resolveField d g c = f) ∧
      (c = none → ∀ f, g = some f → resolveField d g c = f) ∧
      (c = none → g = none → resolveField d g c = d)) ∧
    (∀ g c : NotifyOptions, resolveOpts g c =
      { id := resolveField DEFAULTS.id g.id c.id
        title := resolveField DEFAULTS.title g.title c.title
        message := resolveField DEFAULTS.message g.message c.message
        type := resolveField DEFAULTS.type g.type c.type
        duration := resolveField DEFAULTS.duration g.duration c.duration
        closable := resolveField DEFAULTS.closable g.closable c.closable
        pauseOnHover := resolveField DEFAULTS.pauseOnHover g.pauseOnHover c.pauseOnHover
        position := resolveField DEFAULTS.position g.position c.position
        containerClass := resolveField DEFAULTS.containerClass g.containerClass c.containerClass
        toastClass := resolveField DEFAULTS.toastClass g.toastClass c.toastClass
        injectStyles := resolveField DEFAULTS.injectStyles g.injectStyles c.injectStyles
        onClose := resolveField DEFAULTS.onClose g.onClose c.onClose
        render := resolveField DEFAULTS.render g.render c.render }) ∧
    (∀ (α : Type) (g o : Option (FieldVal α)),
      (∀ f, o = some f → mergeField g o = some f) ∧ (o = none → mergeField g o = g)) ∧
    (∀ (s : NotifyState) (o : NotifyOptions), step s (Op.configureOp o) =
      { s with globalConfig := mergeOpts s.globalConfig o }) ∧
    (∀ (s : NotifyState) (o : NotifyOptions),
      (step s (Op.configureOp o)).toasts = s.toasts ∧
      (step s (Op.configureOp o)).heap = s.heap ∧
      (step s (Op.configureOp o)).attached = s.attached ∧
      (step s (Op.configureOp o)).pending = s.pending) := by
  refine ⟨?_, ?_, ?_, ?_, ?_⟩
  · intro α d g c
    refine ⟨?_, ?_, ?_⟩
    · rintro f rfl; rfl
    · rintro rfl f rfl; rfl
    · rintro rfl rfl; rfl
  · intro g c; rfl
  · intro α g o
    exact ⟨fun f hf => by subst hf; rfl, fun ho => by subst ho; rfl⟩
  · intro s o; rfl
  · intro s o; exact ⟨rfl, rfl, rfl, rfl⟩

theorem option_precedence_witness :
    (some (FieldVal.val 7) = some (FieldVal.val (7 : Nat))) ∧
    resolveField (FieldVal.val 4000) (some (FieldVal.val 1)) (some (FieldVal.val 7)) =
      FieldVal.val (7 : Nat) :=
  ⟨rfl,
    (option_precedence_and_configure_merge.1 Nat (FieldVal.val 4000) (some (FieldVal.val 1))
      (some (FieldVal.val 7))).1 (FieldVal.val 7) rfl⟩

/-! ## C10 — bare-string message vs secondary options record -/

/-- C10: when `notify` is called with a bare message string and a secondary
options record, `{ message: messageOrOpts, ...(maybeOpts || {}) }` lets the
secondary record's own `message` property (when present) override the bare
string; the bare string is used only when the secondary record omits
`message`; every other field is taken from the secondary record unchanged;
and the string overload of notify behaves exactly like `notify` on that
combined record. -/
theorem string_message_overridden_by_record :
    (∀ (msg : String) (o : NotifyOptions) (f : FieldVal String),
      o.message = some f → (mkBase msg (some o)).message = some f) ∧
    (∀ (msg : String) (o : NotifyOptions),
      o.message = none → (mkBase msg (some o)).message = some (FieldVal.val msg)) ∧
    (∀ msg : String, (mkBase msg none).message = some (FieldVal.val msg)) ∧
    (∀ (msg : String) (o : NotifyOptions),
      (mkBase msg (some o)).id = o.id ∧ (mkBase msg (some o)).title = o.title ∧
      (mkBase msg (some o)).type = o.type ∧ (mkBase msg (some o)).duration = o.duration ∧
      (mkBase msg (some o)).closable = o.closable ∧
      (mkBase msg (some o)).pauseOnHover = o.pauseOnHover ∧
      (mkBase msg (some o)).position = o.position ∧
      (mkBase msg (some o)).containerClass = o.containerClass ∧
      (mkBase msg (some o)).toastClass = o.toastClass ∧
      (mkBase msg (some o)).injectStyles = o.injectStyles ∧
      (mkBase msg (some o)).onClose = o.onClose ∧
      (mkBase msg (some o)).render = o.render) ∧
    (∀ (s : NotifyState) (msg : String) (o : Option NotifyOptions),
      step s (Op.notifyStrOp msg o) = step s (Op.notifyOp (mkBase msg o))) := by
  refine ⟨?_, ?_, ?_, ?_, ?_⟩
  · intro msg o f hf
    show some (o.message.getD (.val msg)) = some f
    rw [hf]
    rfl
  · intro msg o hf
    show some (o.message.getD (.val msg)) = some (FieldVal.val msg)
    rw [hf]
    rfl
  · intro msg; rfl
  · intro msg o
    exact ⟨rfl, rfl, rfl, rfl, rfl, rfl, rfl, rfl, rfl, rfl, rfl, rfl⟩
  · intro s msg o; rfl

theorem string_message_witness :
    (mkBase "bare" (some { message := some (FieldVal.val "sec") })).message =
      some (FieldVal.val "sec") :=
  string_message_overridden_by_record.1 "bare" { message := some (FieldVal.val "sec") }
    (FieldVal.val "sec") rfl

/-! ## C3 — merged options and explicitly-undefined fields -/

/-- C3 counterexample: a notify call whose record carries
`duration: undefined` produces a merged record whose `duration` field is not
populated — `Object.assign` copies the explicitly-undefined property over
the built-in default. -/
theorem undefined_duration_unpopulated :
    ¬ populated (resolveOpts init.globalConfig
      { message := some (.val "x"), duration := some .undef }) := by
  decide

/-- C3 (amended): when neither the per-call record nor the process-wide
configuration has a field explicitly set to `undefined`, the three-layer
merge produces a record with every field populated; an explicitly-undefined
field instead overrides the lower layers and is left unpopulated. -/
theorem resolve_populated_of_no_undef {g c : NotifyOptions} (hg : noUndef g)
    (hc : noUndef c) : populated (resolveOpts g c) := by
  have key : ∀ (α : Type) (d : FieldVal α) (go co : Option (FieldVal α)),
      d ≠ .undef → go ≠ some .undef → co ≠ some .undef → resolveField d go co ≠ .undef := by
    intro α d go co hd hgo hco
    cases co with
    | some f =>
      cases f with
      | undef => exact absurd rfl hco
      | val a => intro hcon; exact FieldVal.noConfusion hcon
    | none =>
      cases go with
      | some f =>
        cases f with
        | undef => exact absurd rfl hgo
        | val a => intro hcon; exact FieldVal.noConfusion hcon
      | none => exact hd
  obtain ⟨g1, g2, g3, g4, g5, g6, g7, g8, g9, g10, g11, g12, g13⟩ := hg
  obtain ⟨c1, c2, c3, c4, c5, c6, c7, c8, c9, c10, c11, c12, c13⟩ := hc
  exact ⟨key _ _ _ _ (by simp [DEFAULTS]) g1 c1, key _ _ _ _ (by simp [DEFAULTS]) g2 c2,
    key _ _ _ _ (by simp [DEFAULTS]) g3 c3, key _ _ _ _ (by simp [DEFAULTS]) g4 c4,
    key _ _ _ _ (by simp [DEFAULTS]) g5 c5, key _ _ _ _ (by simp [DEFAULTS]) g6 c6,
    key _ _ _ _ (by simp [DEFAULTS]) g7 c7, key _ _ _ _ (by simp [DEFAULTS]) g8 c8,
    key _ _ _ _ (by simp [DEFAULTS]) g9 c9, key _ _ _ _ (by simp [DEFAULTS]) g10 c10,
    key _ _ _ _ (by simp [DEFAULTS]) g11 c11, key _ _ _ _ (by simp [DEFAULTS]) g12 c12,
    key _ _ _ _ (by simp [DEFAULTS]) g13 c13⟩

theorem resolve_populated_witness :
    noUndef {} ∧ noUndef { message := some (FieldVal.val "x") } ∧
    populated (resolveOpts {} { message := some (FieldVal.val "x") }) :=
  ⟨by decide, by decide, resolve_populated_of_no_undef (by decide) (by decide)⟩

/-! ## C1 — double dismiss and onClose -/

/-- C1 (code bug): dismissing a registered toast twice in quick succession
is not idempotent.  During the 220 ms hiding window the registry entry still
exists, so the second `dismiss` schedules a second removal callback; both
callbacks run and the caller-supplied `onClose` is invoked twice.  The trace
notifies with an explicit identifier and an `onClose` callback, dismisses
twice at the same instant, lets 500 ms pass, and observes two `onClose`
invocations for the single toast instance. -/
theorem dismiss_twice_invokes_onClose_twice :
    ((run init [Op.notifyOp { id := some (.val "a"), onClose := some (.val true) },
        Op.dismissOp "a", Op.dismissOp "a", Op.tick 500]).events.filter
      (fun e => decide (e = Event.closed 0))).length = 2 := by
  decide

/-! ## C2 — registry entries vs attached elements -/

/-- C2 counterexample: after two `notify` calls supplying the same explicit
identifier, the registry holds that identifier once, but two elements
carrying it are attached — the claim's one-to-one correspondence fails. -/
theorem duplicate_id_two_attached_elements :
    ¬ (∀ id ∈ (run init [Op.notifyOp { id := some (.val "a") },
        Op.notifyOp { id := some (.val "a") }]).toasts.map Prod.fst,
      tidCount (run init [Op.notifyOp { id := some (.val "a") },
        Op.notifyOp { id := some (.val "a") }]) id = 1) := by
  decide

theorem inj_heap_ids {s : NotifyState} (hd : DistinctIds s) {o1 o2 : Nat}
    {i1 i2 : InternalToast} (h1 : mapGet s.heap o1 = some i1)
    (h2 : mapGet s.heap o2 = some i2) (hid : i1.id = i2.id) : o1 = o2 := by
  have m1 := mapGet_eq_some_mem h1
  have m2 := mapGet_eq_some_mem h2
  have heq := List.inj_on_of_nodup_map hd m1 m2 hid
  exact congrArg Prod.fst heq

theorem filter_length_one {l : List Nat} {obj : Nat} {p : Nat → Bool} (hn : l.Nodup)
    (hm : obj ∈ l) (h : ∀ e ∈ l, p e = true ↔ e = obj) : (l.filter p).length = 1 := by
  induction l with
  | nil => simp at hm
  | cons x xs ih =>
    rw [List.nodup_cons] at hn
    rcases List.mem_cons.1 hm with h1 | h1
    · rw [List.filter_cons, if_pos ((h x (List.mem_cons_self x xs)).2 h1.symm)]
      have hnil : xs.filter p = [] := by
        rw [List.filter_eq_nil_iff]
        intro a ha hpa
        have ha2 : a = obj := (h a (List.mem_cons_of_mem _ ha)).1 hpa
        rw [ha2, h1] at ha
        exact hn.1 ha
      rw [hnil]
      rfl
    · have hpx : p x = false := by
        cases hq : p x
        · rfl
        · have hxo : x = obj := (h x (List.mem_cons_self x xs)).1 hq
          exact absurd (by rw [hxo]; exact h1) hn.1
      rw [List.filter_cons, if_neg (by simp [hpx])]
      exact ih hn.2 h1 (fun e he => h e (List.mem_cons_of_mem _ he))

theorem tidCount_one {s : NotifyState} (h : WF s) (hd : DistinctIds s) {id : String}
    (hid : id ∈ s.toasts.map Prod.fst) : tidCount s id = 1 := by
  obtain ⟨q, hq, hqe⟩ := List.mem_map.1 hid
  have hih := h.toastsHeap q hq
  have hatt := h.toastsAttached q hq
  obtain ⟨i1, hi1, hi1id⟩ : ∃ i1, mapGet s.heap q.2 = some i1 ∧ i1.id = q.1 := by
    unfold heapIdOf at hih
    cases hg : mapGet s.heap q.2 with
    | none => rw [hg] at hih; exact Option.noConfusion hih
    | some v =>
      rw [hg] at hih
      injection hih with hv
      exact ⟨v, rfl, hv⟩
  unfold tidCount
  refine filter_length_one h.attachedNodup hatt ?_
  intro e he
  constructor
  · intro hpe
    have hee : heapIdOf s e = some id := of_decide_eq_true hpe
    obtain ⟨i2, hi2, hi2id⟩ : ∃ i2, mapGet s.heap e = some i2 ∧ i2.id = id := by
      unfold heapIdOf at hee
      cases hg : mapGet s.heap e with
      | none => rw [hg] at hee; exact Option.noConfusion hee
      | some v =>
        rw [hg] at hee
        injection hee with hv
        exact ⟨v, rfl, hv⟩
    exact inj_heap_ids hd hi2 hi1 (by rw [hi2id, hi1id, hqe])
  · rintro rfl
    refine decide_eq_true ?_
    unfold heapIdOf
    rw [hi1]
    simp [hi1id, hqe]

/-- C2 (amended): provided every toast-creating call along the run assigns a
fresh identifier (no two notify-family calls supply the same explicit id and
no generated id collides with an explicit one), every identifier present in
the toast registry corresponds to exactly one visual element currently
attached to some container.  Two notify calls supplying the same explicit id
violate the correspondence (see the counterexample). -/
theorem registry_unique_attached_element (ops : List Op) (h : freshIds init ops = true) :
    ∀ id ∈ (run init ops).toasts.map Prod.fst, tidCount (run init ops) id = 1 := by
  intro id hid
  exact tidCount_one (wf_run ops init wf_init) (distinct_run ops init distinct_init h) hid

/-! ## C5 — hover pause and resume -/

theorem enterCore_eq {s : NotifyState} {obj : Nat} {internal : InternalToast} {hh : Nat}
    (hy : mapGet s.heap obj = some internal)
    (hg : attachedTo s obj ∧ internal.opts.pauseOnHover.truthyB = true)
    (hz : internal.timeoutId = some hh) :
    enterCore s obj =
      { s with
          pending := removeTimer s.pending hh
          heap := mapSet s.heap obj
            { internal with
                remaining := internal.remaining - (s.now - internal.hoverStart) } } := by
  unfold enterCore
  split
  next hy2 => rw [hy] at hy2; exact Option.noConfusion hy2
  next internal' hy2 =>
    rw [hy] at hy2
    injection hy2 with hint
    subst hint
    rw [if_pos hg]
    split
    next hz2 => rw [hz] at hz2; exact Option.noConfusion hz2
    next hh' hz2 =>
      rw [hz] at hz2
      injection hz2 with hhh
      subst hhh
      rfl

theorem leaveCore_eq {s : NotifyState} {obj : Nat} {internal : InternalToast}
    (hy : mapGet s.heap obj = some internal)
    (hg : attachedTo s obj ∧ internal.opts.pauseOnHover.truthyB = true)
    (hr : 0 < internal.remaining) :
    leaveCore s obj =
      { s with
          pending := s.pending ++
            [⟨s.nextTimer, s.now + internal.remaining, .fireDismiss internal.id obj⟩]
          heap := mapSet s.heap obj
            { internal with hoverStart := s.now, timeoutId := some s.nextTimer }
          nextTimer := s.nextTimer + 1 } := by
  unfold leaveCore
  split
  next hy2 => rw [hy] at hy2; exact Option.noConfusion hy2
  next internal' hy2 =>
    rw [hy] at hy2
    injection hy2 with hint
    subst hint
    rw [if_pos hg, if_pos hr]

theorem leaveCore_zero {s : NotifyState} {obj : Nat} {internal : InternalToast}
    (hy : mapGet s.heap obj = some internal) (hr : internal.remaining = 0) :
    leaveCore s obj = s := by
  unfold leaveCore
  split
  · rfl
  next internal' hy2 =>
    rw [hy] at hy2
    injection hy2 with hint
    subst hint
    split
    next hg => rw [if_neg (by simp [hr])]
    next => rfl

/-- C5: for a toast instance with `pauseOnHover` enabled (and positive
duration): a pointer-enter while the recorded timer handle is set cancels
exactly that timer and shrinks the remaining time by the time elapsed since
the last (re)start; a pointer-leave with positive remaining time arms a
timer for exactly the remaining duration and restarts the clock; a
pointer-leave when the remaining time has reached zero arms nothing and
leaves the state unchanged. -/
theorem hover_pause_resume_exact (s : NotifyState) (obj : Nat) (i : InternalToast)
    (hy : mapGet s.heap obj = some i) (hatt : attachedTo s obj)
    (hpoH : i.opts.pauseOnHover.truthyB = true)
    (hdur : ∃ d, i.opts.duration = FieldVal.val d ∧ 0 < d) :
    (∀ hh, i.timeoutId = some hh →
      (enterCore s obj).pending = removeTimer s.pending hh ∧
      (∀ t ∈ (enterCore s obj).pending, t.handle ≠ hh) ∧
      mapGet (enterCore s obj).heap obj =
        some { i with remaining := i.remaining - (s.now - i.hoverStart) }) ∧
    (0 < i.remaining →
      (leaveCore s obj).pending = s.pending ++
        [⟨s.nextTimer, s.now + i.remaining, .fireDismiss i.id obj⟩] ∧
      mapGet (leaveCore s obj).heap obj =
        some { i with hoverStart := s.now, timeoutId := some s.nextTimer }) ∧
    (i.remaining = 0 → leaveCore s obj = s) := by
  refine ⟨?_, ?_, ?_⟩
  · intro hh hz
    rw [enterCore_eq hy ⟨hatt, hpoH⟩ hz]
    refine ⟨rfl, ?_, ?_⟩
    · intro t ht
      exact (mem_removeTimer.1 ht).2
    · show mapGet (mapSet s.heap obj _) obj = _
      rw [mapGet_mapSet]
      simp
  · intro hr
    rw [leaveCore_eq hy ⟨hatt, hpoH⟩ hr]
    refine ⟨rfl, ?_⟩
    show mapGet (mapSet s.heap obj _) obj = _
    rw [mapGet_mapSet]
    simp
  · intro hr
    exact leaveCore_zero hy hr

theorem hover_pause_resume_witness :
    (enterCore (run init
        [Op.notifyOp { id := some (.val "a"), duration := some (.val 1000) }]) 0).pending =
      removeTimer (run init
        [Op.notifyOp { id := some (.val "a"), duration := some (.val 1000) }]).pending 1 :=
  ((hover_pause_resume_exact _ 0
      ⟨"a", 0, some 1, 1000, 0,
        resolvedWithId init { id := some (.val "a"), duration := some (.val 1000) }⟩
      (by decide) (by decide) (by decide) ⟨1000, by decide, by decide⟩).1 1 rfl).1

theorem registry_unique_attached_element_witness :
    freshIds init [Op.notifyOp { id := some (.val "a"), duration := some (.val 0) },
      Op.notifyOp {}, Op.dismissOp "a", Op.tick 500] = true ∧
    (∀ id ∈ (run init [Op.notifyOp { id := some (.val "a"), duration := some (.val 0) },
        Op.notifyOp {}, Op.dismissOp "a", Op.tick 500]).toasts.map Prod.fst,
      tidCount (run init [Op.notifyOp { id := some (.val "a"), duration := some (.val 0) },
        Op.notifyOp {}, Op.dismissOp "a", Op.tick 500]) id = 1) :=
  ⟨by decide,
    registry_unique_attached_element
      [Op.notifyOp { id := some (.val "a"), duration := some (.val 0) },
        Op.notifyOp {}, Op.dismissOp "a", Op.tick 500] (by decide)⟩

/-! ## C6 — timer cancellation on dismissal -/

theorem ownedFire_fireDismiss {obj : Nat} {t : Timer} {i : String} {o : Nat}
    (ha : t.act = TAct.fireDismiss i o) : ownedFire obj t = decide (o = obj) := by
  unfold ownedFire
  rw [ha]

theorem ownedFire_removal {obj : Nat} {t : Timer} {o : Nat}
    (ha : t.act = TAct.removal o) : ownedFire obj t = false := by
  unfold ownedFire
  rw [ha]

theorem firesObjB_fired_dismiss {obj : Nat} {a : TAct} {i : String} {o : Nat}
    (ha : a = TAct.fireDismiss i o) : firesObjB obj (Event.fired a) = decide (o = obj) := by
  unfold firesObjB
  rw [ha]

theorem firesObjB_fired_removal {obj : Nat} {a : TAct} {o : Nat}
    (ha : a = TAct.removal o) : firesObjB obj (Event.fired a) = false := by
  unfold firesObjB
  rw [ha]

theorem firesObjB_closed (obj o : Nat) : firesObjB obj (Event.closed o) = false := rfl

theorem good_dismissCore {s : NotifyState} {obj : Nat} (h : Good s obj) (id : String) :
    Good (dismissCore s id) obj ∧ (dismissCore s id).events = s.events := by
  cases hx : mapGet s.toasts id with
  | none => rw [dismissCore_none hx]; exact ⟨h, rfl⟩
  | some o' =>
    cases hy : mapGet s.heap o' with
    | none => rw [dismissCore_noheap hx hy]; exact ⟨h, rfl⟩
    | some internal =>
      rw [dismissCore_eq hx hy]
      refine ⟨⟨h.1, ?_⟩, rfl⟩
      intro t ht
      rcases List.mem_append.1 ht with h1 | h1
      · exact h.2 t (mem_clearRec h1)
      · rw [List.mem_singleton] at h1
        subst h1
        rfl

theorem good_removalCore {s : NotifyState} {obj : Nat} (h : Good s obj) (o' : Nat) :
    Good (removalCore s o') obj ∧
    ∃ ex, (removalCore s o').events = s.events ++ ex ∧ ∀ e ∈ ex, firesObjB obj e = false := by
  cases hy : mapGet s.heap o' with
  | none =>
    rw [removalCore_none hy]
    exact ⟨h, [], by simp, by simp⟩
  | some internal =>
    rw [removalCore_eq hy]
    refine ⟨⟨h.1, h.2⟩,
      (if internal.opts.onClose.truthyB then [Event.closed o'] else []), rfl, ?_⟩
    intro e he
    by_cases hoc : internal.opts.onClose.truthyB
    · rw [if_pos hoc, List.mem_singleton] at he
      subst he
      rfl
    · rw [if_neg hoc] at he
      simp at he

theorem good_fireTimer {s : NotifyState} {obj : Nat} (h : Good s obj) {t : Timer}
    (ht : t ∈ s.pending) :
    Good (fireTimer s t) obj ∧
    ∃ ex, (fireTimer s t).events = s.events ++ ex ∧ ∀ e ∈ ex, firesObjB obj e = false := by
  have hfired : firesObjB obj (Event.fired t.act) = false := by
    cases ha : t.act with
    | fireDismiss i o =>
      rw [firesObjB_fired_dismiss (a := TAct.fireDismiss i o) rfl]
      have h2 := h.2 t ht
      rw [ownedFire_fireDismiss ha] at h2
      exact h2
    | removal o => exact firesObjB_fired_removal (a := TAct.removal o) rfl
  have hG1 : Good { s with now := t.fireAt, pending := removeTimer s.pending t.handle, events := s.events ++ [Event.fired t.act] } obj :=
    ⟨h.1, fun u hu => h.2 u (mem_removeTimer.1 hu).1⟩
  unfold fireTimer
  cases ha : t.act with
  | fireDismiss i o =>
    rw [ha] at hG1 hfired
    obtain ⟨hg, hev⟩ := good_dismissCore hG1 i
    refine ⟨hg, [Event.fired (TAct.fireDismiss i o)], ?_, ?_⟩
    · show (dismissCore _ i).events = _
      rw [hev]
    · intro e he
      rw [List.mem_singleton] at he
      subst he
      exact hfired
  | removal o =>
    rw [ha] at hG1 hfired
    obtain ⟨hg, ex2, hev, hcl⟩ := good_removalCore hG1 o
    refine ⟨hg, Event.fired (TAct.removal o) :: ex2, ?_, ?_⟩
    · show (removalCore _ o).events = _
      rw [hev]
      show (s.events ++ [Event.fired (TAct.removal o)]) ++ ex2 = _
      rw [List.append_assoc]
      rfl
    · intro e he
      rcases List.mem_cons.1 he with h1 | h1
      · subst h1
        exact hfired
      · exact hcl e h1

theorem good_runTimers : ∀ (fuel : Nat) (s : NotifyState) (dl : Nat) {obj : Nat},
    Good s obj → Good (runTimers fuel s dl) obj ∧
    ∃ ex, (runTimers fuel s dl).events = s.events ++ ex ∧
      ∀ e ∈ ex, firesObjB obj e = false := by
  intro fuel
  induction fuel with
  | zero =>
    intro s dl obj h
    rw [runTimers]
    exact ⟨⟨h.1, h.2⟩, [], by simp, by simp⟩
  | succ fuel ih =>
    intro s dl obj h
    rw [runTimers]
    split
    · exact ⟨⟨h.1, h.2⟩, [], by simp, by simp⟩
    next t hpick =>
      obtain ⟨hg1, ex1, hev1, hc1⟩ := good_fireTimer h (pickDue_mem hpick)
      obtain ⟨hg2, ex2, hev2, hc2⟩ := ih _ dl hg1
      refine ⟨hg2, ex1 ++ ex2, ?_, ?_⟩
      · rw [hev2, hev1, List.append_assoc]
      · intro e he
        rcases List.mem_append.1 he with h1 | h1
        exacts [hc1 e h1, hc2 e h1]

theorem good_foldl_dismiss : ∀ (l : List String) (s : NotifyState) {obj : Nat},
    Good s obj → Good (l.foldl dismissCore s) obj ∧ (l.foldl dismissCore s).events = s.events
  | [], _, _, h => ⟨h, rfl⟩
  | x :: xs, s, obj, h => by
    obtain ⟨h1, he1⟩ := good_dismissCore h x
    obtain ⟨h2, he2⟩ := good_foldl_dismiss xs _ h1
    exact ⟨h2, he2.trans he1⟩

theorem good_setAuto {s : NotifyState} {obj : Nat} (h : Good s obj) {obj2 : Nat}
    (hne : obj2 ≠ obj) :
    Good (setAutoDismissCore s obj2) obj ∧ (setAutoDismissCore s obj2).events = s.events := by
  cases hy : mapGet s.heap obj2 with
  | none => rw [setAuto_none hy]; exact ⟨h, rfl⟩
  | some internal =>
    by_cases hd : internal.opts.duration = FieldVal.val 0
    · rw [setAuto_zero hy hd]; exact ⟨h, rfl⟩
    · rw [setAuto_eq hy hd]
      refine ⟨⟨h.1, ?_⟩, rfl⟩
      intro t ht
      rcases List.mem_append.1 ht with h1 | h1
      · exact h.2 t (mem_clearRec h1)
      · rw [List.mem_singleton] at h1
        subst h1
        simp [ownedFire, hne]

theorem good_notifyRet {s : NotifyState} {obj : Nat} (h : Good s obj) (b : NotifyOptions) :
    Good (notifyRet s b).2 obj ∧ (notifyRet s b).2.events = s.events := by
  rw [notifyRet_snd]
  have csk := containerForCore_skeleton (stylesStage s (resolvedWithId s b)) (notifyKey s b)
  have ssk := stylesStage_skeleton s (resolvedWithId s b)
  have h2n : (containerForCore (stylesStage s (resolvedWithId s b))
      (notifyKey s b)).2.nextObj = s.nextObj := csk.2.2.2.1.trans ssk.2.2.2.2.1
  have h2p : (containerForCore (stylesStage s (resolvedWithId s b))
      (notifyKey s b)).2.pending = s.pending := csk.2.2.2.2.1.trans ssk.2.2.2.2.2.1
  have h2e : (containerForCore (stylesStage s (resolvedWithId s b))
      (notifyKey s b)).2.events = s.events := csk.2.2.2.2.2.1.trans ssk.2.2.2.2.2.2.1
  have hg3 : Good (registerStage (containerForCore (stylesStage s (resolvedWithId s b))
      (notifyKey s b)).2 (assignedId s b) (resolvedWithId s b)
      (containerForCore (stylesStage s (resolvedWithId s b)) (notifyKey s b)).1) obj := by
    constructor
    · show obj < (containerForCore (stylesStage s (resolvedWithId s b))
        (notifyKey s b)).2.nextObj + 1
      rw [h2n]
      exact Nat.lt_succ_of_lt h.1
    · intro t ht
      have ht2 : t ∈ s.pending := by
        rw [← h2p]
        exact ht
      exact h.2 t ht2
  have hne : (containerForCore (stylesStage s (resolvedWithId s b))
      (notifyKey s b)).2.nextObj ≠ obj := by
    rw [h2n]
    exact fun hq => absurd (hq ▸ h.1) (lt_irrefl obj)
  obtain ⟨hg4, hev4⟩ := good_setAuto hg3 hne
  refine ⟨hg4, hev4.trans h2e⟩

theorem good_step {s : NotifyState} {obj : Nat} (h : Good s obj) {op : Op}
    (hop : op ≠ Op.leave obj) :
    Good (step s op) obj ∧
    ∃ ex, (step s op).events = s.events ++ ex ∧ ∀ e ∈ ex, firesObjB obj e = false := by
  cases op with
  | notifyOp o =>
    obtain ⟨hg, he⟩ := good_notifyRet h o
    exact ⟨hg, [], by show (notifyRet s o).2.events = _; rw [he]; simp, by simp⟩
  | notifyStrOp msg o =>
    obtain ⟨hg, he⟩ := good_notifyRet h (mkBase msg o)
    exact ⟨hg, [], by show (notifyRet s (mkBase msg o)).2.events = _; rw [he]; simp, by simp⟩
  | successOp o =>
    obtain ⟨hg, he⟩ := good_notifyRet h (withType o .success)
    exact ⟨hg, [],
      by show (notifyRet s (withType o .success)).2.events = _; rw [he]; simp, by simp⟩
  | errorOp o =>
    obtain ⟨hg, he⟩ := good_notifyRet h (withType o .error)
    exact ⟨hg, [],
      by show (notifyRet s (withType o .error)).2.events = _; rw [he]; simp, by simp⟩
  | infoOp o =>
    obtain ⟨hg, he⟩ := good_notifyRet h (withType o .info)
    exact ⟨hg, [],
      by show (notifyRet s (withType o .info)).2.events = _; rw [he]; simp, by simp⟩
  | warningOp o =>
    obtain ⟨hg, he⟩ := good_notifyRet h (withType o .warning)
    exact ⟨hg, [],
      by show (notifyRet s (withType o .warning)).2.events = _; rw [he]; simp, by simp⟩
  | dismissOp id =>
    obtain ⟨hg, he⟩ := good_dismissCore h id
    exact ⟨hg, [], by show (dismissCore s id).events = _; rw [he]; simp, by simp⟩
  | clearOp =>
    obtain ⟨hg, he⟩ := good_foldl_dismiss _ _ h
    exact ⟨hg, [],
      by show ((s.toasts.map Prod.fst).foldl dismissCore s).events = _; rw [he]; simp,
      by simp⟩
  | configureOp o =>
    exact ⟨⟨h.1, h.2⟩, [],
      by show ({ s with globalConfig := mergeOpts s.globalConfig o }).events = _; simp,
      by simp⟩
  | tick dt => exact good_runTimers _ _ _ h
  | enter obj2 =>
    rcases enterCore_chars s obj2 with he | ⟨internal, hh, hy, hz, hg, he⟩
    · rw [show step s (Op.enter obj2) = enterCore s obj2 from rfl, he]
      exact ⟨h, [], by simp, by simp⟩
    · rw [show step s (Op.enter obj2) = enterCore s obj2 from rfl, he]
      refine ⟨⟨h.1, fun t ht => h.2 t (mem_removeTimer.1 ht).1⟩, [], by simp, by simp⟩
  | leave obj2 =>
    have hne : obj2 ≠ obj := fun hq => hop (by rw [hq])
    rcases leaveCore_chars s obj2 with he | ⟨internal, hy, hr, hg, he⟩
    · rw [show step s (Op.leave obj2) = leaveCore s obj2 from rfl, he]
      exact ⟨h, [], by simp, by simp⟩
    · rw [show step s (Op.leave obj2) = leaveCore s obj2 from rfl, he]
      refine ⟨⟨h.1, ?_⟩, [], by simp, by simp⟩
      intro t ht
      rcases List.mem_append.1 ht with h1 | h1
      · exact h.2 t h1
      · rw [List.mem_singleton] at h1
        subst h1
        simp [ownedFire, hne]

theorem good_run : ∀ (mid : List Op) (s : NotifyState) {obj : Nat}, Good s obj →
    (∀ op ∈ mid, op ≠ Op.leave obj) →
    Good (run s mid) obj ∧
    ∃ ex, (run s mid).events = s.events ++ ex ∧ ∀ e ∈ ex, firesObjB obj e = false
  | [], _, _, h, _ => ⟨h, [], by simp [run], by simp⟩
  | op :: rest, s, obj, h, hops => by
    obtain ⟨hg1, ex1, hev1, hc1⟩ := good_step h (hops op (List.mem_cons_self _ _))
    obtain ⟨hg2, ex2, hev2, hc2⟩ :=
      good_run rest _ hg1 (fun o ho => hops o (List.mem_cons_of_mem _ ho))
    refine ⟨hg2, ex1 ++ ex2, ?_, ?_⟩
    · show (run (step s op) rest).events = _
      rw [hev2, hev1, List.append_assoc]
    · intro e he
      rcases List.mem_append.1 he with h1 | h1
      exacts [hc1 e h1, hc2 e h1]

/-- C6 counterexample: with `pauseOnHover` enabled, a pointer enter/leave
pair during the 220 ms hiding window re-arms an auto-dismiss timer through
the stale recorded handle (`dismiss` never resets `timeoutId`); the removal
callback then executes, and afterwards the re-armed timer belonging to the
removed toast still fires — the events log shows the toast's auto-dismiss
timer firing after its removal. -/
theorem hover_rearm_fires_after_removal :
    staleAfterRemoval 0 (run init
      [Op.notifyOp { id := some (.val "a"), duration := some (.val 1000) },
        Op.dismissOp "a", Op.enter 0, Op.leave 0, Op.tick 2000]).events = true := by
  decide

/-- C6 (amended): dismissing a registered toast cancels the timer recorded
in its handle before the removal callback is scheduled: immediately after
the dismissal no auto-dismiss timer of the instance is pending while its
removal callback is, provided the instance's pending auto-dismiss timers
were exactly the recorded one (always the case under alternating pointer
events).  Moreover, if no pointer events are delivered to the toast after
its dismissal, no auto-dismiss timer of that instance is pending at any
later point and none ever fires — in particular none fires after its
removal.  A pointer leave during the hiding window can re-arm such a timer,
which does fire after removal (see the counterexample). -/
theorem dismiss_cancels_no_stale_firing (s : NotifyState) (id : String) (obj : Nat)
    (post : List Op) (hreach : Reachable s) (hreg : mapGet s.toasts id = some obj)
    (hsingle : ∀ t ∈ s.pending, ownedFire obj t = true →
      recordedHandle s obj = some t.handle)
    (hpost : ∀ op ∈ post, op ≠ Op.enter obj ∧ op ≠ Op.leave obj) :
    (∀ t ∈ (step s (Op.dismissOp id)).pending, ownedFire obj t = false) ∧
    (∃ t ∈ (step s (Op.dismissOp id)).pending, t.act = TAct.removal obj) ∧
    (∀ mid suffix, post = mid ++ suffix →
      (∀ t ∈ (run (step s (Op.dismissOp id)) mid).pending, ownedFire obj t = false) ∧
      (∀ e ∈ (run (step s (Op.dismissOp id)) mid).events.drop s.events.length,
        firesObjB obj e = false)) := by
  have hwf := reachable_wf hreach
  have hih := hwf.toastsHeap (id, obj) (mapGet_eq_some_mem hreg)
  obtain ⟨internal, hy, hiid⟩ : ∃ i, mapGet s.heap obj = some i ∧ i.id = id := by
    unfold heapIdOf at hih
    cases hg : mapGet s.heap obj with
    | none => rw [hg] at hih; exact Option.noConfusion hih
    | some v =>
      rw [hg] at hih
      injection hih with hv
      exact ⟨v, rfl, hv⟩
  have hstep0 : step s (Op.dismissOp id) = dismissCore s id := rfl
  have hstep := dismissCore_eq hreg hy
  have hobjlt : obj < s.nextObj := hwf.heapLt (obj, internal) (mapGet_eq_some_mem hy)
  have hno : ∀ t ∈ (step s (Op.dismissOp id)).pending, ownedFire obj t = false := by
    rw [hstep0, hstep]
    intro t ht
    rcases List.mem_append.1 ht with h1 | h1
    · cases hz : internal.timeoutId with
      | none =>
        have h2 : t ∈ s.pending := by rw [hz] at h1; exact h1
        cases hq : ownedFire obj t
        · rfl
        · have h3 := hsingle t h2 hq
          rw [show recordedHandle s obj = none from by
            unfold recordedHandle; rw [hy]; simp [hz]] at h3
          exact Option.noConfusion h3
      | some hh =>
        have h2 := mem_removeTimer.1 (show t ∈ removeTimer s.pending hh from by
          rw [hz] at h1; exact h1)
        cases hq : ownedFire obj t
        · rfl
        · have h3 := hsingle t h2.1 hq
          rw [show recordedHandle s obj = some hh from by
            unfold recordedHandle; rw [hy]; simp [hz]] at h3
          injection h3 with h4
          exact absurd h4.symm h2.2
    · rw [List.mem_singleton] at h1
      subst h1
      rfl
  refine ⟨hno, ?_, ?_⟩
  · rw [hstep0, hstep]
    exact ⟨⟨s.nextTimer, s.now + 220, .removal obj⟩,
      List.mem_append_right _ (List.mem_singleton.2 rfl), rfl⟩
  · intro mid suffix hsplit
    have hGood : Good (step s (Op.dismissOp id)) obj :=
      ⟨by rw [hstep0, hstep]; exact hobjlt, hno⟩
    have hmidops : ∀ op ∈ mid, op ≠ Op.leave obj := by
      intro op hop
      exact (hpost op (by rw [hsplit]; exact List.mem_append_left _ hop)).2
    obtain ⟨hG, ex, hex, hclean⟩ := good_run mid _ hGood hmidops
    refine ⟨hG.2, ?_⟩
    intro e he
    have hse : (step s (Op.dismissOp id)).events = s.events := by rw [hstep0, hstep]
    rw [hex, hse, List.drop_left] at he
    exact hclean e he

/-! ## C4 — sticky toasts never schedule a timer -/

theorem id_mem_heapIds {s : NotifyState} {o : Nat} {v : InternalToast}
    (h : mapGet s.heap o = some v) : v.id ∈ heapIds s :=
  List.mem_map.2 ⟨(o, v), mapGet_eq_some_mem h, rfl⟩

theorem heapIdOf_some_elim {s : NotifyState} {o : Nat} {i' : String}
    (h : heapIdOf s o = some i') : ∃ v, mapGet s.heap o = some v ∧ v.id = i' := by
  unfold heapIdOf at h
  cases hg : mapGet s.heap o with
  | none => rw [hg] at h; exact Option.noConfusion h
  | some v =>
    rw [hg] at h
    injection h with hv
    exact ⟨v, rfl, hv⟩

theorem sticky_dismissCore {rid : String} {obj : Nat} {s : NotifyState}
    (h : StickyInv rid obj s) {id' : String} (hne : id' ≠ rid) :
    StickyInv rid obj (dismissCore s id') := by
  obtain ⟨hwf, hdist, hreg, ⟨i, hy, hiid, htid, hrem⟩, hfire, hrm⟩ := h
  cases hx : mapGet s.toasts id' with
  | none =>
    rw [dismissCore_none hx]
    exact ⟨hwf, hdist, hreg, ⟨i, hy, hiid, htid, hrem⟩, hfire, hrm⟩
  | some o2 =>
    cases hy2 : mapGet s.heap o2 with
    | none =>
      rw [dismissCore_noheap hx hy2]
      exact ⟨hwf, hdist, hreg, ⟨i, hy, hiid, htid, hrem⟩, hfire, hrm⟩
    | some i2 =>
      have hwf' := wf_dismissCore hwf id'
      rw [dismissCore_eq hx hy2] at hwf' ⊢
      have ho2 : o2 ≠ obj := by
        intro hq
        subst hq
        have h3 := hwf.toastsHeap (id', o2) (mapGet_eq_some_mem hx)
        unfold heapIdOf at h3
        rw [hy] at h3
        have h4 : i.id = id' := by
          simpa using h3
        exact hne (by rw [← h4, hiid])
      refine ⟨hwf', distinct_of_heap_eq rfl hdist, hreg,
        ⟨i, hy, hiid, htid, hrem⟩, ?_, ?_⟩
      · intro t ht i' o' ha
        rcases List.mem_append.1 ht with h1 | h1
        · exact hfire t (mem_clearRec h1) i' o' ha
        · rw [List.mem_singleton] at h1
          subst h1
          exact TAct.noConfusion ha
      · intro t ht
        rcases List.mem_append.1 ht with h1 | h1
        · exact hrm t (mem_clearRec h1)
        · rw [List.mem_singleton] at h1
          subst h1
          intro hcon
          injection hcon with h5
          exact ho2 h5

theorem sticky_removalCore {rid : String} {obj : Nat} {s : NotifyState}
    (h : StickyInv rid obj s) {o2 : Nat} (hne : o2 ≠ obj) :
    StickyInv rid obj (removalCore s o2) := by
  obtain ⟨hwf, hdist, hreg, ⟨i, hy, hiid, htid, hrem⟩, hfire, hrm⟩ := h
  cases hy2 : mapGet s.heap o2 with
  | none =>
    rw [removalCore_none hy2]
    exact ⟨hwf, hdist, hreg, ⟨i, hy, hiid, htid, hrem⟩, hfire, hrm⟩
  | some i2 =>
    have hwf' := wf_removalCore hwf o2
    rw [removalCore_eq hy2] at hwf' ⊢
    have hid2 : i2.id ≠ rid := by
      intro hq
      exact hne (inj_heap_ids hdist hy2 hy (by rw [hq, hiid]))
    refine ⟨hwf', distinct_of_heap_eq rfl hdist, ?_,
      ⟨i, hy, hiid, htid, hrem⟩, hfire, hrm⟩
    show mapGet (mapDelete s.toasts i2.id) rid = some obj
    rw [mapGet_mapDelete, if_neg (fun hq => hid2 hq.symm)]
    exact hreg

theorem sticky_fireTimer {rid : String} {obj : Nat} {s : NotifyState}
    (h : StickyInv rid obj s) {t : Timer} (ht : t ∈ s.pending) :
    StickyInv rid obj (fireTimer s t) := by
  obtain ⟨hwf, hdist, hreg, hex, hfire, hrm⟩ := h
  have hs1 : StickyInv rid obj { s with now := t.fireAt, pending := removeTimer s.pending t.handle, events := s.events ++ [Event.fired t.act] } := by
    refine ⟨?_, distinct_of_heap_eq rfl hdist, hreg, hex, ?_, ?_⟩
    · refine ⟨hwf.toastsNodup, hwf.heapNodup, hwf.heapLt, hwf.heapEl, hwf.toastsHeap,
        hwf.toastsAttached, hwf.attachedNodup, hwf.attachedHeap, ?_⟩
      intro u hu
      exact hwf.pendingOk u (mem_removeTimer.1 hu).1
    · intro u hu i' o' ha
      exact hfire u (mem_removeTimer.1 hu).1 i' o' ha
    · intro u hu
      exact hrm u (mem_removeTimer.1 hu).1
  unfold fireTimer
  cases ha : t.act with
  | fireDismiss i' o' =>
    rw [ha] at hs1
    exact sticky_dismissCore hs1 (hfire t ht i' o' ha)
  | removal o' =>
    rw [ha] at hs1
    refine sticky_removalCore hs1 ?_
    intro hq
    exact hrm t ht (by rw [ha, hq])

theorem sticky_set_now {rid : String} {obj : Nat} {s : NotifyState}
    (h : StickyInv rid obj s) (dl : Nat) : StickyInv rid obj { s with now := dl } := by
  obtain ⟨hwf, hdist, hreg, hex, hfire, hrm⟩ := h
  exact ⟨WF.copy hwf rfl rfl rfl rfl rfl, distinct_of_heap_eq rfl hdist, hreg, hex, hfire, hrm⟩

theorem sticky_runTimers : ∀ (fuel : Nat) (s : NotifyState) (dl : Nat) {rid : String}
    {obj : Nat}, StickyInv rid obj s → StickyInv rid obj (runTimers fuel s dl) := by
  intro fuel
  induction fuel with
  | zero =>
    intro s dl rid obj h
    rw [runTimers]
    exact sticky_set_now h dl
  | succ fuel ih =>
    intro s dl rid obj h
    rw [runTimers]
    split
    · exact sticky_set_now h dl
    next t hpick => exact ih _ _ (sticky_fireTimer h (pickDue_mem hpick))

theorem sticky_enterCore {rid : String} {obj : Nat} {s : NotifyState}
    (h : StickyInv rid obj s) (obj2 : Nat) : StickyInv rid obj (enterCore s obj2) := by
  obtain ⟨hwf, hdist, hreg, ⟨i, hy, hiid, htid, hrem⟩, hfire, hrm⟩ := h
  rcases enterCore_chars s obj2 with he | ⟨i2, hh, hy2, hz, hg, he⟩
  · rw [he]; exact ⟨hwf, hdist, hreg, ⟨i, hy, hiid, htid, hrem⟩, hfire, hrm⟩
  · have hne : obj2 ≠ obj := by
      intro hq
      subst hq
      rw [hy] at hy2
      injection hy2 with h3
      rw [h3, hz] at htid
      exact Option.noConfusion htid
    have hwf' := wf_enterCore hwf obj2
    rw [he] at hwf' ⊢
    refine ⟨hwf', distinct_heapUpdate hdist hy2 rfl rfl, hreg, ⟨i, ?_, hiid, htid, hrem⟩,
      ?_, ?_⟩
    · show mapGet (mapSet s.heap obj2 _) obj = some i
      rw [mapGet_mapSet, if_neg (fun hq => hne hq.symm)]
      exact hy
    · intro t ht i' o' ha
      exact hfire t (mem_removeTimer.1 ht).1 i' o' ha
    · intro t ht
      exact hrm t (mem_removeTimer.1 ht).1

theorem sticky_leaveCore {rid : String} {obj : Nat} {s : NotifyState}
    (h : StickyInv rid obj s) (obj2 : Nat) : StickyInv rid obj (leaveCore s obj2) := by
  obtain ⟨hwf, hdist, hreg, ⟨i, hy, hiid, htid, hrem⟩, hfire, hrm⟩ := h
  rcases leaveCore_chars s obj2 with he | ⟨i2, hy2, hr, hg, he⟩
  · rw [he]; exact ⟨hwf, hdist, hreg, ⟨i, hy, hiid, htid, hrem⟩, hfire, hrm⟩
  · have hne : obj2 ≠ obj := by
      intro hq
      subst hq
      rw [hy] at hy2
      injection hy2 with h3
      rw [h3] at hrem
      rw [hrem] at hr
      exact absurd hr (lt_irrefl 0)
    have hid2 : i2.id ≠ rid := fun hq => hne (inj_heap_ids hdist hy2 hy (by rw [hq, hiid]))
    have hwf' := wf_leaveCore hwf obj2
    rw [he] at hwf' ⊢
    refine ⟨hwf', distinct_heapUpdate hdist hy2 rfl rfl, hreg, ⟨i, ?_, hiid, htid, hrem⟩,
      ?_, ?_⟩
    · show mapGet (mapSet s.heap obj2 _) obj = some i
      rw [mapGet_mapSet, if_neg (fun hq => hne hq.symm)]
      exact hy
    · intro t ht i' o' ha
      rcases List.mem_append.1 ht with h1 | h1
      · exact hfire t h1 i' o' ha
      · rw [List.mem_singleton] at h1
        subst h1
        injection ha with h4 h5
        rw [← h4]
        exact hid2
    · intro t ht
      rcases List.mem_append.1 ht with h1 | h1
      · exact hrm t h1
      · rw [List.mem_singleton] at h1
        subst h1
        intro hcon
        exact TAct.noConfusion hcon

theorem sticky_setAuto {rid : String} {obj : Nat} {s : NotifyState}
    (h : StickyInv rid obj s) {obj2 : Nat} (hne : obj2 ≠ obj)
    (hid2 : ∀ i2, mapGet s.heap obj2 = some i2 → i2.id ≠ rid) :
    StickyInv rid obj (setAutoDismissCore s obj2) := by
  obtain ⟨hwf, hdist, hreg, ⟨i, hy, hiid, htid, hrem⟩, hfire, hrm⟩ := h
  cases hy2 : mapGet s.heap obj2 with
  | none =>
    rw [setAuto_none hy2]
    exact ⟨hwf, hdist, hreg, ⟨i, hy, hiid, htid, hrem⟩, hfire, hrm⟩
  | some i2 =>
    by_cases hd0 : i2.opts.duration = FieldVal.val 0
    · rw [setAuto_zero hy2 hd0]
      exact ⟨hwf, hdist, hreg, ⟨i, hy, hiid, htid, hrem⟩, hfire, hrm⟩
    · have hwf' := wf_setAutoDismissCore hwf obj2
      rw [setAuto_eq hy2 hd0] at hwf' ⊢
      refine ⟨hwf', distinct_heapUpdate hdist hy2 rfl rfl, hreg, ⟨i, ?_, hiid, htid, hrem⟩,
        ?_, ?_⟩
      · show mapGet (mapSet s.heap obj2 _) obj = some i
        rw [mapGet_mapSet, if_neg (fun hq => hne hq.symm)]
        exact hy
      · intro t ht i' o' ha
        rcases List.mem_append.1 ht with h1 | h1
        · exact hfire t (mem_clearRec h1) i' o' ha
        · rw [List.mem_singleton] at h1
          subst h1
          injection ha with h4 h5
          rw [← h4]
          exact hid2 i2 hy2
      · intro t ht
        rcases List.mem_append.1 ht with h1 | h1
        · exact hrm t (mem_clearRec h1)
        · rw [List.mem_singleton] at h1
          subst h1
          intro hcon
          exact TAct.noConfusion hcon

theorem sticky_copy {rid : String} {obj : Nat} {s s' : NotifyState} (h : StickyInv rid obj s)
    (hwf' : WF s') (h1 : s'.toasts = s.toasts) (h2 : s'.heap = s.heap)
    (h4 : s'.pending = s.pending) : StickyInv rid obj s' := by
  obtain ⟨hwf, hdist, hreg, ⟨i, hy, hiid, htid, hrem⟩, hfire, hrm⟩ := h
  refine ⟨hwf', distinct_of_heap_eq h2 hdist, by rw [h1]; exact hreg,
    ⟨i, by rw [h2]; exact hy, hiid, htid, hrem⟩, ?_, ?_⟩
  · intro t ht i' o' ha
    rw [h4] at ht
    exact hfire t ht i' o' ha
  · intro t ht
    rw [h4] at ht
    exact hrm t ht

theorem sticky_registerStage {rid : String} {obj : Nat} {s : NotifyState}
    (h : StickyInv rid obj s) {rid2 : String} (hfr : rid2 ∉ heapIds s)
    (r : ResolvedOptions) (cid : Nat) : StickyInv rid obj (registerStage s rid2 r cid) := by
  obtain ⟨hwf, hdist, hreg, ⟨i, hy, hiid, htid, hrem⟩, hfire, hrm⟩ := h
  have hne : rid2 ≠ rid := by
    intro hq
    exact hfr (hq ▸ (hiid ▸ id_mem_heapIds hy))
  refine ⟨wf_registerStage hwf rid2 r cid, distinct_registerStage hdist hfr r cid, ?_,
    ⟨i, ?_, hiid, htid, hrem⟩, ?_, ?_⟩
  · show mapGet (mapSet s.toasts rid2 s.nextObj) rid = some obj
    rw [mapGet_mapSet, if_neg (fun hq => hne hq.symm)]
    exact hreg
  · show mapGet (s.heap ++ [_]) obj = some i
    exact mapGet_append_left _ hy
  · intro t ht i' o' ha
    exact hfire t ht i' o' ha
  · intro t ht
    exact hrm t ht

theorem sticky_notifyRet {rid : String} {obj : Nat} {s : NotifyState}
    (h : StickyInv rid obj s) {b : NotifyOptions} (hfr : assignedId s b ∉ heapIds s) :
    StickyInv rid obj (notifyRet s b).2 := by
  rw [notifyRet_snd]
  have ssk := stylesStage_skeleton s (resolvedWithId s b)
  have csk := containerForCore_skeleton (stylesStage s (resolvedWithId s b)) (notifyKey s b)
  have hwf2 : WF (containerForCore (stylesStage s (resolvedWithId s b)) (notifyKey s b)).2 :=
    wf_containerForCore (wf_stylesStage h.1 _) _
  have hs2 : StickyInv rid obj
      (containerForCore (stylesStage s (resolvedWithId s b)) (notifyKey s b)).2 :=
    sticky_copy h hwf2 (csk.1.trans ssk.1) (csk.2.1.trans ssk.2.1)
      (csk.2.2.2.2.1.trans ssk.2.2.2.2.2.1)
  have hids : heapIds (containerForCore (stylesStage s (resolvedWithId s b))
      (notifyKey s b)).2 = heapIds s := by
    unfold heapIds
    rw [csk.2.1, ssk.2.1]
  have hfr2 : assignedId s b ∉ heapIds (containerForCore (stylesStage s (resolvedWithId s b))
      (notifyKey s b)).2 := by
    rw [hids]
    exact hfr
  have hs3 := sticky_registerStage hs2 hfr2 (resolvedWithId s b)
    (containerForCore (stylesStage s (resolvedWithId s b)) (notifyKey s b)).1
  refine sticky_setAuto hs3 ?_ ?_
  · obtain ⟨hwf, _, _, ⟨i, hy, hiid, _, _⟩, _, _⟩ := h
    have hlt : obj < s.nextObj := hwf.heapLt (obj, i) (mapGet_eq_some_mem hy)
    rw [csk.2.2.2.1, ssk.2.2.2.2.1]
    intro hq
    rw [hq] at hlt
    exact absurd hlt (lt_irrefl obj)
  · intro i2 hg
    have hfresh2 : mapGet (containerForCore (stylesStage s (resolvedWithId s b))
        (notifyKey s b)).2.heap (containerForCore (stylesStage s (resolvedWithId s b))
        (notifyKey s b)).2.nextObj = none :=
      mapGet_eq_none_iff.2 (nextObj_fresh hwf2)
    have hg2 : mapGet ((containerForCore (stylesStage s (resolvedWithId s b))
        (notifyKey s b)).2.heap ++
        [((containerForCore (stylesStage s (resolvedWithId s b)) (notifyKey s b)).2.nextObj,
          ⟨assignedId s b,
            (containerForCore (stylesStage s (resolvedWithId s b)) (notifyKey s b)).2.nextObj,
            none, (resolvedWithId s b).duration.durOrZero,
            (containerForCore (stylesStage s (resolvedWithId s b)) (notifyKey s b)).2.now,
            resolvedWithId s b⟩)])
        (containerForCore (stylesStage s (resolvedWithId s b)) (notifyKey s b)).2.nextObj =
        some i2 := hg
    rw [mapGet_append_right _ hfresh2] at hg2
    simp only [mapGet, if_pos rfl] at hg2
    injection hg2 with hg3
    rw [← hg3]
    show assignedId s b ≠ rid
    intro hq
    obtain ⟨_, _, _, ⟨i, hy, hiid, _, _⟩, _, _⟩ := h
    have hmem : rid ∈ heapIds s := hiid ▸ id_mem_heapIds hy
    rw [hq] at hfr
    exact hfr hmem

theorem sticky_step {rid : String} {obj : Nat} {s : NotifyState} {op : Op}
    (h : StickyInv rid obj s) (hf : freshStep s op = true) (hd : op ≠ Op.dismissOp rid)
    (hc : op ≠ Op.clearOp) : StickyInv rid obj (step s op) := by
  cases op with
  | notifyOp o =>
    exact sticky_notifyRet h (by simpa [freshStep, Op.baseOf] using hf)
  | notifyStrOp msg o =>
    exact sticky_notifyRet h (by simpa [freshStep, Op.baseOf] using hf)
  | successOp o =>
    exact sticky_notifyRet h (by simpa [freshStep, Op.baseOf] using hf)
  | errorOp o =>
    exact sticky_notifyRet h (by simpa [freshStep, Op.baseOf] using hf)
  | infoOp o =>
    exact sticky_notifyRet h (by simpa [freshStep, Op.baseOf] using hf)
  | warningOp o =>
    exact sticky_notifyRet h (by simpa [freshStep, Op.baseOf] using hf)
  | dismissOp id' =>
    have hne : id' ≠ rid := fun hq => hd (by rw [hq])
    exact sticky_dismissCore h hne
  | clearOp => exact absurd rfl hc
  | configureOp o => exact sticky_copy h (wf_step h.1 _) rfl rfl rfl
  | tick dt => exact sticky_runTimers _ _ _ h
  | enter obj2 => exact sticky_enterCore h obj2
  | leave obj2 => exact sticky_leaveCore h obj2

theorem sticky_run : ∀ (mid : List Op) (s : NotifyState) {rid : String} {obj : Nat},
    StickyInv rid obj s → freshIds s mid = true →
    (∀ op ∈ mid, op ≠ Op.dismissOp rid ∧ op ≠ Op.clearOp) →
    StickyInv rid obj (run s mid)
  | [], _, _, _, h, _, _ => h
  | op :: rest, s, rid, obj, h, hfr, hops => by
    obtain ⟨h1, h2⟩ := freshIds_cons hfr
    have hop := hops op (List.mem_cons_self _ _)
    exact sticky_run rest _ (sticky_step h h1 hop.1 hop.2) h2
      (fun o ho => hops o (List.mem_cons_of_mem _ ho))

theorem sticky_establish (s : NotifyState) (o : NotifyOptions) (hwf : WF s)
    (hdist : DistinctIds s) (hfr : assignedId s o ∉ heapIds s)
    (hdur : (resolveOpts s.globalConfig o).duration = FieldVal.val 0) :
    StickyInv (assignedId s o) s.nextObj (step s (Op.notifyOp o)) := by
  show StickyInv (assignedId s o) s.nextObj (notifyRet s o).2
  rw [notifyRet_snd]
  have ssk := stylesStage_skeleton s (resolvedWithId s o)
  have csk := containerForCore_skeleton (stylesStage s (resolvedWithId s o)) (notifyKey s o)
  have hwf2 : WF (containerForCore (stylesStage s (resolvedWithId s o)) (notifyKey s o)).2 :=
    wf_containerForCore (wf_stylesStage hwf _) _
  have h2t : (containerForCore (stylesStage s (resolvedWithId s o))
      (notifyKey s o)).2.toasts = s.toasts := csk.1.trans ssk.1
  have h2h : (containerForCore (stylesStage s (resolvedWithId s o))
      (notifyKey s o)).2.heap = s.heap := csk.2.1.trans ssk.2.1
  have h2n : (containerForCore (stylesStage s (resolvedWithId s o))
      (notifyKey s o)).2.nextObj = s.nextObj := csk.2.2.2.1.trans ssk.2.2.2.2.1
  have h2p : (containerForCore (stylesStage s (resolvedWithId s o))
      (notifyKey s o)).2.pending = s.pending := csk.2.2.2.2.1.trans ssk.2.2.2.2.2.1
  have hdur2 : (resolvedWithId s o).duration = FieldVal.val 0 := hdur
  have hfresh2 : mapGet (containerForCore (stylesStage s (resolvedWithId s o))
      (notifyKey s o)).2.heap (containerForCore (stylesStage s (resolvedWithId s o))
      (notifyKey s o)).2.nextObj = none :=
    mapGet_eq_none_iff.2 (nextObj_fresh hwf2)
  have hX : mapGet (registerStage (containerForCore (stylesStage s (resolvedWithId s o))
      (notifyKey s o)).2 (assignedId s o) (resolvedWithId s o)
      (containerForCore (stylesStage s (resolvedWithId s o)) (notifyKey s o)).1).heap
      (containerForCore (stylesStage s (resolvedWithId s o)) (notifyKey s o)).2.nextObj =
      some ⟨assignedId s o,
        (containerForCore (stylesStage s (resolvedWithId s o)) (notifyKey s o)).2.nextObj,
        none, (resolvedWithId s o).duration.durOrZero,
        (containerForCore (stylesStage s (resolvedWithId s o)) (notifyKey s o)).2.now,
        resolvedWithId s o⟩ := by
    show mapGet ((containerForCore (stylesStage s (resolvedWithId s o))
      (notifyKey s o)).2.heap ++ [_]) _ = _
    rw [mapGet_append_right _ hfresh2]
    simp [mapGet]
  rw [setAuto_zero hX hdur2]
  refine ⟨wf_registerStage hwf2 _ _ _, ?_, ?_, ?_, ?_, ?_⟩
  · refine distinct_registerStage (distinct_of_heap_eq h2h hdist) ?_ _ _
    rw [show heapIds (containerForCore (stylesStage s (resolvedWithId s o))
      (notifyKey s o)).2 = heapIds s from by unfold heapIds; rw [h2h]]
    exact hfr
  · show mapGet (mapSet (containerForCore (stylesStage s (resolvedWithId s o))
      (notifyKey s o)).2.toasts (assignedId s o)
      (containerForCore (stylesStage s (resolvedWithId s o)) (notifyKey s o)).2.nextObj)
      (assignedId s o) = some s.nextObj
    rw [mapGet_mapSet, if_pos rfl, h2n]
  · refine ⟨⟨assignedId s o,
      (containerForCore (stylesStage s (resolvedWithId s o)) (notifyKey s o)).2.nextObj,
      none, (resolvedWithId s o).duration.durOrZero,
      (containerForCore (stylesStage s (resolvedWithId s o)) (notifyKey s o)).2.now,
      resolvedWithId s o⟩, ?_, rfl, rfl, ?_⟩
    · rw [← h2n]
      exact hX
    · show (resolvedWithId s o).duration.durOrZero = 0
      rw [hdur2]
      rfl
  · intro t ht i' o' ha
    have ht2 : t ∈ s.pending := by
      rw [← h2p]
      exact ht
    have hok := hwf.pendingOk t ht2
    rw [ha] at hok
    have hok2 : heapIdOf s o' = some i' := hok
    obtain ⟨v, hv, hvid⟩ := heapIdOf_some_elim hok2
    intro hq
    exact hfr (hq ▸ (hvid ▸ id_mem_heapIds hv))
  · intro t ht hcon
    have ht2 : t ∈ s.pending := by
      rw [← h2p]
      exact ht
    have hok := hwf.pendingOk t ht2
    rw [hcon] at hok
    have hok2 : (heapIdOf s s.nextObj).isSome = true := hok
    unfold heapIdOf at hok2
    rw [mapGet_eq_none_iff.2 (nextObj_fresh hwf)] at hok2
    simp at hok2

/-- C4: a toast whose resolved duration is exactly 0 never has an
auto-dismiss timer scheduled — not at show time (setAutoDismiss returns
without arming) and not by the hover handlers (the recorded handle stays
unset and the hover `remaining` stays 0, so `mouseleave` never arms) — and
it remains registered until an explicit `dismiss` of its identifier or a
`clear`.  The run's toast-creating operations are assumed to assign fresh
identifiers (so no later call evicts the toast by reusing its id), and the
suffix after the sticky `notify` contains no `dismiss` of that identifier
and no `clear`. -/
theorem sticky_toast_never_scheduled (pre post : List Op) (o : NotifyOptions)
    (hfresh : freshIds init (pre ++ Op.notifyOp o :: post) = true)
    (hdur : (resolveOpts (run init pre).globalConfig o).duration = FieldVal.val 0)
    (hpost : ∀ op ∈ post, op ≠ Op.dismissOp (assignedId (run init pre) o) ∧
      op ≠ Op.clearOp) :
    ∀ mid suffix, post = mid ++ suffix →
      mapGet (run (step (run init pre) (Op.notifyOp o)) mid).toasts
        (assignedId (run init pre) o) = some (run init pre).nextObj ∧
      (∃ i, mapGet (run (step (run init pre) (Op.notifyOp o)) mid).heap
        (run init pre).nextObj = some i ∧ i.timeoutId = none) ∧
      noOwnedFire (run (step (run init pre) (Op.notifyOp o)) mid)
        (run init pre).nextObj := by
  intro mid suffix hsplit
  rw [freshIds_append, Bool.and_eq_true] at hfresh
  obtain ⟨hf1, hf2⟩ := hfresh
  obtain ⟨hf3, hf4⟩ := freshIds_cons hf2
  rw [hsplit, freshIds_append, Bool.and_eq_true] at hf4
  obtain ⟨hf5, _⟩ := hf4
  have hwf0 : WF (run init pre) := wf_run pre init wf_init
  have hd0 : DistinctIds (run init pre) := distinct_run pre init distinct_init hf1
  have hfr : assignedId (run init pre) o ∉ heapIds (run init pre) := by
    simpa [freshStep, Op.baseOf] using hf3
  have hinv := sticky_establish (run init pre) o hwf0 hd0 hfr hdur
  have hmidops : ∀ op ∈ mid, op ≠ Op.dismissOp (assignedId (run init pre) o) ∧
      op ≠ Op.clearOp :=
    fun op hop => hpost op (by rw [hsplit]; exact List.mem_append_left _ hop)
  have hinv2 := sticky_run mid _ hinv hf5 hmidops
  obtain ⟨hwfF, hdF, hregF, ⟨i, hyF, hiidF, htidF, hremF⟩, hfireF, hrmF⟩ := hinv2
  refine ⟨hregF, ⟨i, hyF, htidF⟩, ?_⟩
  intro t ht
  cases ha : t.act with
  | fireDismiss i' o' =>
    rw [ownedFire_fireDismiss ha]
    by_cases ho : o' = (run init pre).nextObj
    · exfalso
      have hok := hwfF.pendingOk t ht
      rw [ha] at hok
      have hok2 : heapIdOf (run (step (run init pre) (Op.notifyOp o)) mid) o' = some i' :=
        hok
      rw [ho] at hok2
      unfold heapIdOf at hok2
      rw [hyF] at hok2
      have h6 : i.id = i' := by simpa using hok2
      exact hfireF t ht i' o' ha (by rw [← h6, hiidF])
    · simp [ho]
  | removal o' => exact ownedFire_removal ha

theorem sticky_toast_witness :
    mapGet (run (step (run init [])
        (Op.notifyOp { id := some (.val "a"), duration := some (.val 0) }))
        [Op.notifyOp {}]).toasts
      (assignedId (run init []) { id := some (.val "a"), duration := some (.val 0) }) =
      some (run init []).nextObj :=
  (sticky_toast_never_scheduled [] [Op.notifyOp {}, Op.tick 100]
    { id := some (.val "a"), duration := some (.val 0) } (by decide) (by decide) (by decide)
    [Op.notifyOp {}] [Op.tick 100] rfl).1

theorem dismiss_cancels_witness :
    ownedFire 0 ⟨2, 220, TAct.removal 0⟩ = false :=
  (dismiss_cancels_no_stale_firing
      (run init [Op.notifyOp { id := some (.val "a"), duration := some (.val 1000) }]) "a" 0
      [Op.tick 2000]
      ⟨[Op.notifyOp { id := some (.val "a"), duration := some (.val 1000) }], rfl⟩
      (by decide) (by decide) (by decide)).1 ⟨2, 220, TAct.removal 0⟩ (by decide)

end TalxwevNotify
